import Mathlib

/-!
# Fibonacci service: arbitrary-precision sequence generation and chunked streaming

A shallow embedding of `internal/service/service.go`, `internal/domain/errors.go` and the
handlers of `internal/server/server.go`, together with the properties of the
natural-language specification that concern them.

Modelling conventions

* A Go `string` is the list of its bytes, each byte a natural number below 256; byte
  arithmetic is written with an explicit `% 256`.
* Go `int` values (`n`, `chunkSize`, loop indices, limits) are mathematical integers.  An
  index of the service counts Fibonacci numbers already computed, and a chunk size is the
  length of an allocated slice, so a run would have to compute more than `2 ^ 62` Fibonacci
  numbers before `i + chunkSize` or `i++` reached the 64-bit wrap-around.
* A Go call either returns, panics (a run-time error such as `makeslice: len out of range`
  or an index out of range), or runs for ever; `Outcome` has one constructor for each.
* `make([]string, n)` fails for a negative `n` and for an `n` above the largest length the
  running machine allocates.  That length is the parameter `maxLen` of every function that
  allocates; on a 64-bit platform it is at most `maxLen64 = 2 ^ 44` (the run-time limit
  `maxAlloc = 2 ^ 48` bytes, 16 bytes per string header).  Running out of heap while a
  digit string grows is a fatal error of the Go run time, not a panic, and ends the
  process; the model describes the runs in which the heap suffices for the strings.
* Loops
  are driven by a fuel counter; a loop whose number of iterations is known on entry gets its
  fuel from there, the chunk loop of `processChunks`, which does not terminate for
  `chunkSize = 0`, takes its fuel as an argument.
* The cancellation signal `ctx` is an oracle: `ctx k` is the value of `ctx.Err()` at the
  `k`-th poll of `ctx.Done()` made by the running call (`none`: not done).
* The `send` callback is a function of the number of invocations made before, the chunk
  and the start index; the list of invocations is returned next to the result.
* The Prometheus observations and the clock readings in `GetFibonacci` and
  `GetFibonacciStream` have no influence on what the calls return and are left out.
* The handlers of `internal/server/server.go` take the service through the interface
  `service.Service`; the logger calls are left out.
-/

namespace Fibonacci

/-! ## Data model -/

/-- Bytes of a Go `string`, first byte first. -/
abbrev GoString := List Nat

/-- Bytes of a string literal (its UTF-8 encoding, as Go stores it). -/
def lit (s : String) : GoString := s.toUTF8.data.toList.map UInt8.toNat

/-- Errors of `internal/domain/errors.go`, the two errors of package `context`, errors built
by `fmt.Errorf` with one `%w` verb and one `%d` verb, and errors made by callers: with
`errors.New` (`custom`) or by joining two errors with `errors.Join` (`joined`). -/
inductive GoError where
  | ErrInvalidChunkSize : GoError
  | ErrNegativeN : GoError
  | ErrTooLargeN : GoError
  | ErrContextCanceled : GoError
  | contextCanceled : GoError
  | contextDeadlineExceeded : GoError
  | errorf (format : String) (wrapped : GoError) (arg : Int) : GoError
  | custom (msg : String) : GoError
  | joined (first second : GoError) : GoError
  deriving DecidableEq, Repr

/-- Go `errors.Is`: `err` is `target`, or wraps (through `%w`) an error that matches, or
joins two errors one of which matches. -/
def errorsIs : GoError → GoError → Bool
  | .errorf f w a, target =>
    if GoError.errorf f w a = target then true else errorsIs w target
  | .joined e1 e2, target =>
    if GoError.joined e1 e2 = target then true else (errorsIs e1 target || errorsIs e2 target)
  | err, target => decide (err = target)

/-- Values `ctx.Err()` takes once `ctx.Done()` is closed. -/
inductive CtxErr where
  | Canceled : CtxErr
  | DeadlineExceeded : CtxErr
  deriving DecidableEq, Repr

/-- The Go error value of a context error. -/
def CtxErr.toError : CtxErr → GoError
  | .Canceled => .contextCanceled
  | .DeadlineExceeded => .contextDeadlineExceeded

/-- The cancellation signal: `ctx k` is `ctx.Err()` at the `k`-th poll, `none` while the
context is not done. -/
abbrev Context := Nat → Option CtxErr

/-- A context that is never done (`context.Background()`). -/
def background : Context := fun _ => none

/-- A context cancelled before the call (`cancel()` was called on it). -/
def canceledCtx : Context := fun _ => some CtxErr.Canceled

/-- How a Go call ends. -/
inductive Outcome (α : Type) where
  | ret (a : α) : Outcome α
  | panicked : Outcome α
  | outOfFuel : Outcome α
  deriving DecidableEq, Repr

/-- Go `make([]string, n)`: `n` empty strings; a panic (`makeslice: len out of range`) for
a negative `n` and for an `n` above `maxLen`, the largest length the machine allocates. -/
def makeSlice (maxLen n : Int) : Option (List GoString) :=
  if 0 ≤ n ∧ n ≤ maxLen then some (List.replicate n.toNat []) else none

/-- The largest length `make([]string, n)` accepts on a 64-bit platform: `maxAlloc`
(`2 ^ 48` bytes) divided by the 16 bytes of a string header. -/
def maxLen64 : Int := 17592186044416

/-- Go `s[i]` read, `none` when the index is out of range. -/
def sliceGet (s : List GoString) (i : Int) : Option GoString :=
  if 0 ≤ i then s[i.toNat]? else none

/-- Go `s[i] = v`, `none` when the index is out of range. -/
def sliceSet (s : List GoString) (i : Int) (v : GoString) : Option (List GoString) :=
  if 0 ≤ i ∧ i < s.length then some (s.set i.toNat v) else none

/-- Go `s[:k]`, `none` when `k` is out of range. -/
def slicePrefix (s : List GoString) (k : Int) : Option (List GoString) :=
  if 0 ≤ k ∧ k ≤ s.length then some (s.take k.toNat) else none

/-! ## `addStrings` -/

/-- Go `num[i] - '0'` on bytes, converted to `int`. -/
def byteMinusZero (b : Nat) : Nat := (b + 256 - 48) % 256

/-- Go `byte(sum) + '0'`. -/
def byteOfSum (sum : Nat) : Nat := (sum % 256 + 48) % 256

/-- The first loop of `addStrings`: `for i >= 0 || j >= 0 || carry`.  The indices `i`, `j`
run from the last byte of each operand down to `-1`; `result` collects the digits least
significant first. -/
def addStringsLoop (num1 num2 : GoString) :
    Nat → Int → Int → Bool → GoString → Option GoString
  | 0, _, _, _, _ => none
  | fuel + 1, i, j, carry, result =>
    if 0 ≤ i ∨ 0 ≤ j ∨ carry = true then
      let sum : Nat := 0
      let sum := if carry then sum + 1 else sum
      let sum := if 0 ≤ i then sum + byteMinusZero (num1.getD i.toNat 0) else sum
      let i := if 0 ≤ i then i - 1 else i
      let sum := if 0 ≤ j then sum + byteMinusZero (num2.getD j.toNat 0) else sum
      let j := if 0 ≤ j then j - 1 else j
      let carry := decide (9 < sum)
      let sum := if 9 < sum then sum - 10 else sum
      addStringsLoop num1 num2 fuel i j carry (result ++ [byteOfSum sum])
    else some result

/-- The second loop of `addStrings`: the in-place reversal
`for k, l := 0, len(result)-1; k < l; k, l = k+1, l-1`. -/
def reverseLoop : Nat → Int → Int → GoString → Option GoString
  | 0, _, _, _ => none
  | fuel + 1, k, l, result =>
    if k < l then
      reverseLoop fuel (k + 1) (l - 1)
        ((result.set k.toNat (result.getD l.toNat 0)).set l.toNat (result.getD k.toNat 0))
    else some result

/-- Go `addStrings(num1, num2)`.  Both loops get more fuel than they have iterations
(`addStringsLoop_eq`, `reverseLoop_eq`). -/
def addStrings (num1 num2 : GoString) : GoString :=
  match addStringsLoop num1 num2 (num1.length + num2.length + 2)
      ((num1.length : Int) - 1) ((num2.length : Int) - 1) false [] with
  | none => []
  | some result =>
    match reverseLoop (result.length + 1) 0 ((result.length : Int) - 1) result with
    | none => []
    | some reversed => reversed

/-! ## `getFibonacci` and `GetFibonacci` -/

/-- What a Go function of type `([]string, error)` returns; `none` in the first component
is the `nil` slice, `none` in the second the `nil` error. -/
abbrev SeqResult := Option (List GoString) × Option GoError

/-- The branch `case <-ctx.Done():` shared by both generators: `context.Canceled` is
translated to `domain.ErrContextCanceled`, any other context error is returned as it is. -/
def ctxDoneError (e : CtxErr) : GoError :=
  if errorsIs e.toError GoError.contextCanceled then GoError.ErrContextCanceled else e.toError

/-- The loop `for i := 2; i < n; i++` of `getFibonacci`.  The poll of `ctx.Done()` made
before index `i` is computed is poll number `i - 2`. -/
def getFibonacciLoop (ctx : Context) (n : Int) : Nat → Int → List GoString → Outcome SeqResult
  | 0, _, _ => Outcome.outOfFuel
  | fuel + 1, i, seq =>
    if i < n then
      match ctx (i - 2).toNat with
      | some e => Outcome.ret (none, some (ctxDoneError e))
      | none =>
        match sliceGet seq (i - 1), sliceGet seq (i - 2) with
        | some a, some b =>
          match sliceSet seq i (addStrings a b) with
          | some seq1 => getFibonacciLoop ctx n fuel (i + 1) seq1
          | none => Outcome.panicked
        | _, _ => Outcome.panicked
    else Outcome.ret (some seq, none)

/-- Go `getFibonacci(ctx, n)`; `maxLen` is the allocation limit of `make`. -/
def getFibonacci (maxLen : Int) (ctx : Context) (n : Int) : Outcome SeqResult :=
  match makeSlice maxLen n with
  | none => Outcome.panicked
  | some seq =>
    let seq := if 0 < n then seq.set 0 (lit "0") else seq
    let seq := if 1 < n then seq.set 1 (lit "1") else seq
    getFibonacciLoop ctx n (n.toNat + 1) 2 seq

/-- The receiver `fibonacciService`: the four injected limits. -/
structure fibonacciService where
  MaxChunkSize : Int
  MinChunkSize : Int
  NLimit : Int
  StreamNLimit : Int
  deriving DecidableEq, Repr

/-- Go `NewService(maxChunkSize, minChunkSize, nLimit, streamNLimit)`. -/
def NewService (maxChunkSize minChunkSize nLimit streamNLimit : Int) : fibonacciService :=
  { MaxChunkSize := maxChunkSize, MinChunkSize := minChunkSize,
    NLimit := nLimit, StreamNLimit := streamNLimit }

/-- Go `(*fibonacciService).GetFibonacci(ctx, n)`, with the allocation limit `maxLen` of
`make`.  The second component counts the calls
made to `getFibonacci`. -/
def GetFibonacci (maxLen : Int) (s : fibonacciService) (ctx : Context) (n : Int) :
    Outcome SeqResult × Nat :=
  if n < 0 then (Outcome.ret (none, some GoError.ErrNegativeN), 0)
  else if n > s.NLimit then
    (Outcome.ret (none, some (GoError.errorf "%w: must not exceed %d" GoError.ErrTooLargeN s.NLimit)), 0)
  else
    match getFibonacci maxLen ctx n with
    | Outcome.ret (res, err) =>
      match err with
      | some e => (Outcome.ret (none, some e), 1)
      | none => (Outcome.ret (res, none), 1)
    | Outcome.panicked => (Outcome.panicked, 1)
    | Outcome.outOfFuel => (Outcome.outOfFuel, 1)

/-! ## `processChunks` and `GetFibonacciStream` -/

/-- One invocation of the `send` callback: the chunk as it was when passed, and the start
index. -/
abbrev Call := List GoString × Int

/-- The `send` callback: given the number of invocations made so far, the chunk and the
start index it answers `nil` (`none`) or an error. -/
abbrev SendFunc := Nat → List GoString → Int → Option GoError

/-- The inner loop `for j := 0; j < currentChunkSize; j++` of `processChunks`, on the
rolling pair and the reused buffer. -/
def fillChunk (currentChunkSize : Int) :
    Nat → Int → GoString → GoString → List GoString →
      Outcome (GoString × GoString × List GoString)
  | 0, _, _, _, _ => Outcome.outOfFuel
  | fuel + 1, j, prev1, prev2, chunk =>
    if j < currentChunkSize then
      match sliceSet chunk j prev1 with
      | some chunk1 => fillChunk currentChunkSize fuel (j + 1) prev2 (addStrings prev1 prev2) chunk1
      | none => Outcome.panicked
    else Outcome.ret (prev1, prev2, chunk)

/-- The loop `for i := 0; i < n; i += chunkSize` of `processChunks`.  `iteration` is the
counter of the source, which is also the number of the poll; `calls` lists the invocations
of `send` made so far. -/
def processChunksLoop (ctx : Context) (n chunkSize : Int) (send : SendFunc) :
    Nat → Int → Nat → GoString → GoString → List GoString → List Call →
      Outcome (Option GoError) × List Call
  | 0, _, _, _, _, _, calls => (Outcome.outOfFuel, calls)
  | fuel + 1, i, iteration, prev1, prev2, chunk, calls =>
    if i < n then
      match ctx iteration with
      | some e => (Outcome.ret (some (ctxDoneError e)), calls)
      | none =>
        let iteration := iteration + 1
        let end0 := i + chunkSize
        let end1 := if end0 > n then n else end0
        let currentChunkSize := end1 - i
        match fillChunk currentChunkSize (currentChunkSize.toNat + 1) 0 prev1 prev2 chunk with
        | Outcome.ret (prev1, prev2, chunk) =>
          match slicePrefix chunk currentChunkSize with
          | some view =>
            match send calls.length view i with
            | some err => (Outcome.ret (some err), calls ++ [(view, i)])
            | none =>
              processChunksLoop ctx n chunkSize send fuel (i + chunkSize) iteration
                prev1 prev2 chunk (calls ++ [(view, i)])
          | none => (Outcome.panicked, calls)
        | Outcome.panicked => (Outcome.panicked, calls)
        | Outcome.outOfFuel => (Outcome.outOfFuel, calls)
    else (Outcome.ret none, calls)

/-- Go `processChunks(ctx, n, chunkSize, send)`, with the allocation limit `maxLen` of
`make`, run for at most `fuel` iterations of the
chunk loop. -/
def processChunks (fuel : Nat) (maxLen : Int) (ctx : Context) (n chunkSize : Int)
    (send : SendFunc) :
    Outcome (Option GoError) × List Call :=
  match makeSlice maxLen chunkSize with
  | none => (Outcome.panicked, [])
  | some chunk => processChunksLoop ctx n chunkSize send fuel 0 0 (lit "0") (lit "1") chunk []

/-- Go `domain.FibonacciStreamRequest`. -/
structure FibonacciStreamRequest where
  N : Int
  ChunkSize : Int
  SendFunc : SendFunc

/-- Go `(*fibonacciService).GetFibonacciStream(ctx, req)`, with the allocation limit and
the fuel of
`processChunks`. -/
def GetFibonacciStream (fuel : Nat) (maxLen : Int) (s : fibonacciService) (ctx : Context)
    (req : FibonacciStreamRequest) : Outcome (Option GoError) × List Call :=
  if req.N < 0 then (Outcome.ret (some GoError.ErrNegativeN), [])
  else if req.N > s.StreamNLimit then
    (Outcome.ret (some (GoError.errorf "%w: must not exceed %d" GoError.ErrTooLargeN s.NLimit)), [])
  else if req.ChunkSize > s.MaxChunkSize then
    (Outcome.ret (some (GoError.errorf "%w: must not exceed %d" GoError.ErrInvalidChunkSize
      s.MaxChunkSize)), [])
  else if req.ChunkSize < s.MinChunkSize then
    (Outcome.ret (some (GoError.errorf "%w: must be at least %d" GoError.ErrInvalidChunkSize
      s.MinChunkSize)), [])
  else
    match processChunks fuel maxLen ctx req.N req.ChunkSize req.SendFunc with
    | (Outcome.ret (some err), calls) => (Outcome.ret (some err), calls)
    | (Outcome.ret none, calls) => (Outcome.ret none, calls)
    | (Outcome.panicked, calls) => (Outcome.panicked, calls)
    | (Outcome.outOfFuel, calls) => (Outcome.outOfFuel, calls)

/-! ## Error messages -/

/-- Go `fmt.Sprintf` for formats whose verbs are `%w`, `%s` and `%d`; each verb takes the
next argument, given already rendered (an error by its `Error()` text, an `int` in
decimal). -/
def sprintf : List Char → List String → List Char
  | [], _ => []
  | '%' :: v :: rest, args =>
    if v = 'w' ∨ v = 's' ∨ v = 'd' then
      match args with
      | a :: args1 => a.data ++ sprintf rest args1
      | [] => '%' :: '!' :: v :: ("(MISSING)".data ++ sprintf rest [])
    else '%' :: v :: sprintf rest args
  | c :: rest, args => c :: sprintf rest args

/-- Go `err.Error()`: the texts of `internal/domain/errors.go` and of package `context`;
an error built by `fmt.Errorf` renders its format. -/
def GoError.Error : GoError → String
  | .ErrInvalidChunkSize => "invalid chunk size"
  | .ErrNegativeN => "n must be positive"
  | .ErrTooLargeN => "to large n"
  | .ErrContextCanceled => "context canceled"
  | .contextCanceled => "context canceled"
  | .contextDeadlineExceeded => "context deadline exceeded"
  | .errorf format wrapped arg => String.mk (sprintf format.data [wrapped.Error, toString arg])
  | .custom msg => msg
  | .joined e1 e2 => e1.Error ++ "\n" ++ e2.Error

/-! ## `internal/server/server.go` -/

/-- A gRPC status error as built by `status.Errorf`: its code and its message. -/
structure Status where
  code : Nat
  message : String
  deriving DecidableEq, Repr

/-- Constant `http.StatusBadRequest`. -/
def StatusBadRequest : Nat := 400

/-- Constant `http.StatusServiceUnavailable`. -/
def StatusServiceUnavailable : Nat := 503

/-- Constant `http.StatusInternalServerError`. -/
def StatusInternalServerError : Nat := 500

/-- Go `status.Errorf(code, format, err)` for a format with one `%s` verb. -/
def statusErrorf (code : Nat) (format : String) (err : GoError) : Status :=
  { code := code, message := String.mk (sprintf format.data [err.Error]) }

/-- The interface `service.Service` as the server sees it: what the two methods return. -/
structure Service where
  GetFibonacci : Context → Int → SeqResult
  GetFibonacciStream : Context → FibonacciStreamRequest → Option GoError

/-- The receiver `FibonacciServer`: the service, and `globalCtx` as the value of
`s.globalCtx.Err()` at the moment a handler reads it (`none`: the process context is not
done). -/
structure FibonacciServer where
  service : Service
  globalCtx : Option CtxErr

/-- Go `api.FibonacciResponse`. -/
structure FibonacciResponse where
  Values : Option (List GoString)
  deriving DecidableEq, Repr

/-- Go `int32(i)` for an `int`. -/
def toInt32 (i : Int) : Int := (i + 2147483648) % 4294967296 - 2147483648

/-- Go `(*FibonacciServer).FibonacciStream(req, stream)`.  `ctx` is the merged context the
handler passes on, `stream` is `stream.Send` applied to the chunk message (values and
`int32` index). -/
def FibonacciServer.FibonacciStream (s : FibonacciServer) (ctx : Context) (N ChunkSize : Int)
    (stream : SendFunc) : Option Status :=
  let sendFunc : SendFunc := fun k values i => stream k values (toInt32 i)
  match s.service.GetFibonacciStream ctx { N := N, ChunkSize := ChunkSize, SendFunc := sendFunc } with
  | some err =>
    if errorsIs err GoError.ErrInvalidChunkSize || errorsIs err GoError.ErrNegativeN
        || errorsIs err GoError.ErrTooLargeN then
      some (statusErrorf StatusBadRequest "Bad Request: %s" err)
    else if errorsIs err GoError.ErrContextCanceled && s.globalCtx.isSome then
      some (statusErrorf StatusServiceUnavailable "Service unavailable: %s" err)
    else if errorsIs err GoError.ErrContextCanceled then
      some (statusErrorf StatusBadRequest "Context canceled: %s" err)
    else some (statusErrorf StatusInternalServerError "Internal server error: %s" err)
  | none => none

/-- Go `(*FibonacciServer).Fibonacci(ctx, req)`; `ctx` is the merged context the handler
passes on. -/
def FibonacciServer.Fibonacci (s : FibonacciServer) (ctx : Context) (N : Int) :
    Option FibonacciResponse × Option Status :=
  match s.service.GetFibonacci ctx N with
  | (_, some err) =>
    if errorsIs err GoError.ErrInvalidChunkSize || errorsIs err GoError.ErrNegativeN
        || errorsIs err GoError.ErrTooLargeN then
      (none, some (statusErrorf StatusBadRequest "Bad Request: %s" err))
    else if errorsIs err GoError.ErrContextCanceled && s.globalCtx.isSome then
      (none, some (statusErrorf StatusServiceUnavailable "Service unavailable: %s" err))
    else if errorsIs err GoError.ErrContextCanceled then
      (none, some (statusErrorf StatusBadRequest "Context canceled: %s" err))
    else (none, some (statusErrorf StatusInternalServerError "Internal server error: %s" err))
  | (res, none) => (some { Values := res }, none)

/-! ## Vocabulary of the specification -/

/-- The string consists of ASCII decimal digits only. -/
def IsDigits (s : GoString) : Prop := ∀ b ∈ s, 48 ≤ b ∧ b ≤ 57

instance (s : GoString) : Decidable (IsDigits s) := by
  unfold IsDigits; infer_instance

/-- Numeric value of a digit string, most significant digit first. -/
def value (s : GoString) : Nat := s.foldl (fun acc b => 10 * acc + (b - 48)) 0

/-- A valid `DigitString`: not empty, digits only, no leading zero unless it is `"0"`. -/
def ValidDigitString (s : GoString) : Prop :=
  s ≠ [] ∧ IsDigits s ∧ (s.head? = some 48 → s = [48])

instance (s : GoString) : Decidable (ValidDigitString s) := by
  unfold ValidDigitString; infer_instance

/-- The canonical decimal string of a natural number. -/
def decimal (k : Nat) : GoString :=
  if k = 0 then [48] else (Nat.digits 10 k).reverse.map (fun d => d + 48)

/-- Decimal strings of the Fibonacci numbers `F(t), ..., F(t + len - 1)`. -/
def fibRange (t len : Nat) : List GoString :=
  (List.range' t len).map (fun i => decimal (Nat.fib i))

/-- The canonical Fibonacci prefix of length `n` in decimal string form. -/
def fibStrings (n : Nat) : List GoString :=
  (List.range n).map (fun i => decimal (Nat.fib i))

/-- Number of chunks of size `chunkSize` needed for `n` elements: `ceil (n / chunkSize)`. -/
def numChunks (n chunkSize : Int) : Nat := ((n + chunkSize - 1) / chunkSize).toNat

/-- Number of elements emitted by the first `k` chunks. -/
def emitted (n chunkSize : Int) (k : Nat) : Nat := (min ((k : Int) * chunkSize) n).toNat

/-- The `k`-th chunk (counted from 0) of the canonical sequence of length `n`. -/
def chunkAt (n chunkSize : Int) (k : Nat) : List GoString :=
  fibRange (emitted n chunkSize k) (emitted n chunkSize (k + 1) - emitted n chunkSize k)

/-- The invocations of `send` for the chunks `0, ..., k - 1`. -/
def callsUpTo (n chunkSize : Int) (k : Nat) : List Call :=
  (List.range k).map (fun j => (chunkAt n chunkSize j, (j : Int) * chunkSize))

/-- The error a call of type `([]string, error)` returned, if it returned one. -/
def seqError : Outcome SeqResult → Option GoError
  | Outcome.ret (_, err) => err
  | _ => none

/-- The call returned an error that matches `target` under `errors.Is`. -/
def failsWith (o : Outcome SeqResult) (target : GoError) : Bool :=
  match seqError o with
  | some e => errorsIs e target
  | none => false

/-- The error a call of type `error` returned, if it returned one. -/
def streamError : Outcome (Option GoError) → Option GoError
  | Outcome.ret err => err
  | _ => none

/-- The stream call returned an error that matches `target` under `errors.Is`. -/
def streamFailsWith (o : Outcome (Option GoError)) (target : GoError) : Bool :=
  match streamError o with
  | some e => errorsIs e target
  | none => false

/-- The error matches one of the three validation errors `ErrInvalidChunkSize`,
`ErrNegativeN`, `ErrTooLargeN`. -/
def matchesValidation (err : GoError) : Bool :=
  errorsIs err GoError.ErrInvalidChunkSize || errorsIs err GoError.ErrNegativeN
    || errorsIs err GoError.ErrTooLargeN

/-! ## Auxiliary functions of the proofs -/

/-- One column of the addition: the digit written and the carry passed on, for the carry
coming in and the two operand values of the column. -/
def column (carry : Bool) (d1 d2 : Nat) : Nat × Bool :=
  let sum := (if carry then 1 else 0) + d1 + d2
  (byteOfSum (if 9 < sum then sum - 10 else sum), decide (9 < sum))

/-- Ripple-carry addition on byte lists that hold the least significant digit first; the
list form of `addStringsLoop`. -/
def rippleAdd : List Nat → List Nat → Bool → List Nat
  | [], [], false => []
  | [], [], true => [byteOfSum 1]
  | x :: xs, [], c =>
    (column c (byteMinusZero x) 0).1 :: rippleAdd xs [] (column c (byteMinusZero x) 0).2
  | [], y :: ys, c =>
    (column c 0 (byteMinusZero y)).1 :: rippleAdd [] ys (column c 0 (byteMinusZero y)).2
  | x :: xs, y :: ys, c =>
    (column c (byteMinusZero x) (byteMinusZero y)).1 ::
      rippleAdd xs ys (column c (byteMinusZero x) (byteMinusZero y)).2

/-- Value of a digit list that holds the least significant digit first. -/
def leValue (xs : List Nat) : Nat := Nat.ofDigits 10 (xs.map (fun b => b - 48))

/-- The most significant digit (the last one) of a least-significant-first list is not
`'0'`. -/
def NoTrail (xs : List Nat) : Prop := ∀ h : xs ≠ [], xs.getLast h ≠ 48

/-! ## `addStrings`: the loops -/

theorem reverse_take_succ (l : List Nat) (p : Nat) (h : p < l.length) :
    (l.take (p + 1)).reverse = l.getD p 0 :: (l.take p).reverse := by
  rw [List.take_succ, List.getD_eq_getElem?_getD, List.getElem?_eq_getElem h]
  simp

theorem addStringsLoop_eq (num1 num2 : GoString) :
    ∀ (fuel p q : Nat) (carry : Bool) (result : GoString),
      p ≤ num1.length → q ≤ num2.length → p + q + 2 ≤ fuel →
      addStringsLoop num1 num2 fuel ((p : Int) - 1) ((q : Int) - 1) carry result =
        some (result ++ rippleAdd (num1.take p).reverse (num2.take q).reverse carry) := by
  intro fuel
  induction fuel with
  | zero => intro p q carry result _ _ h; omega
  | succ fuel ih =>
    intro p q carry result hp hq hf
    rcases p with _ | p <;> rcases q with _ | q
    · obtain ⟨fuel, rfl⟩ : ∃ f, fuel = f + 1 := ⟨fuel - 1, by omega⟩
      cases carry <;> simp [addStringsLoop, rippleAdd]
    · have h1 : ((q + 1 : Nat) : Int) - 1 = (q : Int) := by omega
      have := ih 0 q (column carry 0 (byteMinusZero (num2.getD q 0))).2
        (result ++ [(column carry 0 (byteMinusZero (num2.getD q 0))).1])
        (by omega) (by omega) (by omega)
      rw [reverse_take_succ num2 q (by omega)]
      simp only [h1, addStringsLoop, rippleAdd, List.take_zero, List.reverse_nil]
      simpa [column] using this
    · have h1 : ((p + 1 : Nat) : Int) - 1 = (p : Int) := by omega
      have := ih p 0 (column carry (byteMinusZero (num1.getD p 0)) 0).2
        (result ++ [(column carry (byteMinusZero (num1.getD p 0)) 0).1])
        (by omega) (by omega) (by omega)
      rw [reverse_take_succ num1 p (by omega)]
      simp only [h1, addStringsLoop, rippleAdd, List.take_zero, List.reverse_nil]
      simpa [column] using this
    · have h1 : ((p + 1 : Nat) : Int) - 1 = (p : Int) := by omega
      have h2 : ((q + 1 : Nat) : Int) - 1 = (q : Int) := by omega
      have := ih p q (column carry (byteMinusZero (num1.getD p 0)) (byteMinusZero (num2.getD q 0))).2
        (result ++ [(column carry (byteMinusZero (num1.getD p 0))
          (byteMinusZero (num2.getD q 0))).1])
        (by omega) (by omega) (by omega)
      rw [reverse_take_succ num1 p (by omega), reverse_take_succ num2 q (by omega)]
      simp only [h1, h2, addStringsLoop, rippleAdd]
      simpa [column] using this

theorem getD_append_cons (P Q : List Nat) (a d : Nat) : (P ++ a :: Q).getD P.length d = a := by
  induction P with
  | nil => simp
  | cons p P ih => simpa using ih

theorem set_append_cons (P Q : List Nat) (a b : Nat) : (P ++ a :: Q).set P.length b = P ++ b :: Q := by
  induction P with
  | nil => simp
  | cons p P ih => simp

theorem reverseLoop_eq :
    ∀ (fuel : Nat) (P M S : List Nat), P.length = S.length → M.length + 1 ≤ fuel →
      reverseLoop fuel (P.length : Int) ((P.length : Int) + M.length - 1)
        (P ++ M ++ S) = some (P ++ M.reverse ++ S) := by
  intro fuel
  induction fuel with
  | zero => intro P M S _ h; omega
  | succ fuel ih =>
    intro P M S hPS hf
    rcases M with _ | ⟨x, M⟩
    · simp [reverseLoop]
    · rcases List.eq_nil_or_concat M with rfl | ⟨M1, y, rfl⟩
      · simp [reverseLoop]
      · simp only [List.concat_eq_append] at hf ⊢
        have hlt : (P.length : Int) < (P.length : Int) + ((x :: (M1 ++ [y])).length : Nat) - 1 := by
          simp; omega
        have hk : ((P.length : Int)).toNat = P.length := by simp
        have hl : ((P.length : Int) + ((x :: (M1 ++ [y])).length : Nat) - 1).toNat
            = (P ++ x :: M1).length := by
          simp; omega
        have hl2 : ((P.length : Int) + ((x :: (M1 ++ [y])).length : Nat) - 1).toNat
            = (P ++ y :: M1).length := by
          simp; omega
        have e1 : P ++ (x :: (M1 ++ [y])) ++ S = (P ++ x :: M1) ++ y :: S := by simp
        have e2 : P ++ (x :: (M1 ++ [y])) ++ S = P ++ x :: (M1 ++ y :: S) := by simp
        have e3 : P ++ y :: (M1 ++ y :: S) = (P ++ y :: M1) ++ y :: S := by simp
        have := ih (P ++ [y]) M1 (x :: S) (by simp [hPS]) (by simp at hf; omega)
        have g1 : (P ++ (x :: (M1 ++ [y])) ++ S).getD
            ((P.length : Int) + ((x :: (M1 ++ [y])).length : Nat) - 1).toNat 0 = y := by
          rw [hl, e1, getD_append_cons]
        have g2 : (P ++ (x :: (M1 ++ [y])) ++ S).getD ((P.length : Int)).toNat 0 = x := by
          rw [hk, e2, getD_append_cons]
        rw [reverseLoop, if_pos hlt, g1, g2, hk, e2, set_append_cons, e3, hl2, set_append_cons]
        have i1 : (P.length : Int) + 1 = ((P ++ [y]).length : Nat) := by simp
        have i2 : (P.length : Int) + ((x :: (M1 ++ [y])).length : Nat) - 1 - 1
            = ((P ++ [y]).length : Nat) + (M1.length : Nat) - 1 := by simp; omega
        rw [i1, i2]
        simpa using this

theorem addStrings_eq (num1 num2 : GoString) :
    addStrings num1 num2 = (rippleAdd num1.reverse num2.reverse false).reverse := by
  have h1 := addStringsLoop_eq num1 num2 (num1.length + num2.length + 2) num1.length num2.length
    false [] le_rfl le_rfl le_rfl
  have h2 := fun r : List Nat => reverseLoop_eq (r.length + 1) [] r [] rfl le_rfl
  simp only [List.take_length, List.nil_append] at h1
  simp only [List.length_nil, List.reverse_nil, List.nil_append, List.append_nil,
    Nat.cast_zero, zero_add] at h2
  rw [addStrings, h1]
  simp only
  rw [h2]
/-! ## `addStrings`: digits and value -/

theorem byteMinusZero_digit (b : Nat) (h : 48 ≤ b ∧ b ≤ 57) : byteMinusZero b = b - 48 := by
  unfold byteMinusZero; omega

theorem column_spec (c : Bool) (d1 d2 : Nat) (h1 : d1 ≤ 9) (h2 : d2 ≤ 9) :
    48 ≤ (column c d1 d2).1 ∧ (column c d1 d2).1 ≤ 57 ∧
      ((column c d1 d2).1 - 48) + 10 * (if (column c d1 d2).2 = true then 1 else 0)
        = (if c = true then 1 else 0) + d1 + d2 := by
  cases c <;> simp only [column, byteOfSum] <;> split_ifs <;> simp_all <;> omega

theorem leValue_nil : leValue [] = 0 := by simp [leValue]

theorem leValue_cons (x : Nat) (xs : List Nat) : leValue (x :: xs) = (x - 48) + 10 * leValue xs := by
  simp [leValue, Nat.ofDigits_cons]

theorem isDigits_cons (x : Nat) (xs : List Nat) :
    IsDigits (x :: xs) ↔ (48 ≤ x ∧ x ≤ 57) ∧ IsDigits xs := by
  simp [IsDigits]

theorem rippleAdd_spec : ∀ (xs ys : List Nat) (c : Bool), IsDigits xs → IsDigits ys →
    IsDigits (rippleAdd xs ys c) ∧
      leValue (rippleAdd xs ys c) = leValue xs + leValue ys + (if c = true then 1 else 0) := by
  intro xs
  induction xs with
  | nil =>
    intro ys
    induction ys with
    | nil => intro c _ _; cases c <;> simp [rippleAdd, IsDigits, leValue, byteOfSum]
    | cons y ys ih =>
      intro c hx hy
      rw [isDigits_cons] at hy
      have hb := byteMinusZero_digit y hy.1
      obtain ⟨c1, c2, c3⟩ := column_spec c 0 (byteMinusZero y) (by omega) (by omega)
      obtain ⟨i1, i2⟩ := ih (column c 0 (byteMinusZero y)).2 hx hy.2
      rw [rippleAdd, isDigits_cons, leValue_cons, leValue_cons, i2]
      refine ⟨⟨⟨c1, c2⟩, i1⟩, ?_⟩
      simp only [leValue_nil] at *
      omega
  | cons x xs ih =>
    intro ys c hx hy
    rw [isDigits_cons] at hx
    have hbx := byteMinusZero_digit x hx.1
    rcases ys with _ | ⟨y, ys⟩
    · obtain ⟨c1, c2, c3⟩ := column_spec c (byteMinusZero x) 0 (by omega) (by omega)
      obtain ⟨i1, i2⟩ := ih [] (column c (byteMinusZero x) 0).2 hx.2 hy
      rw [rippleAdd, isDigits_cons, leValue_cons, leValue_cons, i2]
      refine ⟨⟨⟨c1, c2⟩, i1⟩, ?_⟩
      simp only [leValue_nil] at *
      omega
    · rw [isDigits_cons] at hy
      have hby := byteMinusZero_digit y hy.1
      obtain ⟨c1, c2, c3⟩ := column_spec c (byteMinusZero x) (byteMinusZero y) (by omega) (by omega)
      obtain ⟨i1, i2⟩ := ih ys (column c (byteMinusZero x) (byteMinusZero y)).2 hx.2 hy.2
      rw [rippleAdd, isDigits_cons, leValue_cons, leValue_cons, leValue_cons, i2]
      refine ⟨⟨⟨c1, c2⟩, i1⟩, ?_⟩
      omega

theorem rippleAdd_length : ∀ (xs ys : List Nat) (c : Bool),
    max xs.length ys.length ≤ (rippleAdd xs ys c).length ∧
      (rippleAdd xs ys c).length ≤ max xs.length ys.length + 1 := by
  intro xs
  induction xs with
  | nil =>
    intro ys
    induction ys with
    | nil => intro c; cases c <;> simp [rippleAdd]
    | cons y ys ih =>
      intro c
      have := ih (column c 0 (byteMinusZero y)).2
      rw [rippleAdd]
      simp only [List.length_cons, List.length_nil] at *
      omega
  | cons x xs ih =>
    intro ys c
    rcases ys with _ | ⟨y, ys⟩
    · have := ih [] (column c (byteMinusZero x) 0).2
      rw [rippleAdd]
      simp only [List.length_cons, List.length_nil] at *
      omega
    · have := ih ys (column c (byteMinusZero x) (byteMinusZero y)).2
      rw [rippleAdd]
      simp only [List.length_cons, List.length_nil] at *
      omega


theorem noTrail_nil : NoTrail [] := fun h => absurd rfl h

theorem noTrail_cons (x : Nat) (xs : List Nat) :
    NoTrail (x :: xs) ↔ (xs = [] → x ≠ 48) ∧ NoTrail xs := by
  rcases xs with _ | ⟨y, ys⟩
  · simp [NoTrail]
  · simp [NoTrail, List.getLast_cons]

theorem rippleAdd_eq_nil (xs ys : List Nat) (c : Bool) (h : rippleAdd xs ys c = []) :
    xs = [] ∧ ys = [] ∧ c = false := by
  rcases xs with _ | ⟨x, xs⟩ <;> rcases ys with _ | ⟨y, ys⟩ <;> cases c <;>
    simp [rippleAdd] at h ⊢

theorem rippleAdd_noTrail : ∀ (xs ys : List Nat) (c : Bool), IsDigits xs → IsDigits ys →
    NoTrail xs → NoTrail ys → NoTrail (rippleAdd xs ys c) := by
  intro xs
  induction xs with
  | nil =>
    intro ys
    induction ys with
    | nil => intro c _ _ _ _; cases c <;> simp [rippleAdd, NoTrail, byteOfSum]
    | cons y ys ih =>
      intro c hx hy nx ny
      rw [isDigits_cons] at hy
      rw [noTrail_cons] at ny
      have hb := byteMinusZero_digit y hy.1
      obtain ⟨c1, c2, c3⟩ := column_spec c 0 (byteMinusZero y) (by omega) (by omega)
      rw [rippleAdd, noTrail_cons]
      refine ⟨fun h => ?_, ih _ hx hy.2 nx ny.2⟩
      obtain ⟨-, h2, h3⟩ := rippleAdd_eq_nil _ _ _ h
      have := ny.1 h2
      rw [h3] at c3
      simp at c3
      omega
  | cons x xs ih =>
    intro ys c hx hy nx ny
    rw [isDigits_cons] at hx
    rw [noTrail_cons] at nx
    have hbx := byteMinusZero_digit x hx.1
    rcases ys with _ | ⟨y, ys⟩
    · obtain ⟨c1, c2, c3⟩ := column_spec c (byteMinusZero x) 0 (by omega) (by omega)
      rw [rippleAdd, noTrail_cons]
      refine ⟨fun h => ?_, ih _ _ hx.2 hy nx.2 ny⟩
      obtain ⟨h1, -, h3⟩ := rippleAdd_eq_nil _ _ _ h
      have := nx.1 h1
      rw [h3] at c3
      simp at c3
      omega
    · rw [isDigits_cons] at hy
      rw [noTrail_cons] at ny
      have hby := byteMinusZero_digit y hy.1
      obtain ⟨c1, c2, c3⟩ := column_spec c (byteMinusZero x) (byteMinusZero y) (by omega) (by omega)
      rw [rippleAdd, noTrail_cons]
      refine ⟨fun h => ?_, ih _ _ hx.2 hy.2 nx.2 ny.2⟩
      obtain ⟨h1, -, h3⟩ := rippleAdd_eq_nil _ _ _ h
      have := nx.1 h1
      rw [h3] at c3
      simp at c3
      omega

theorem rippleAdd_zero_left (y : Nat) (ys : List Nat) (c : Bool) :
    rippleAdd [48] (y :: ys) c = rippleAdd [] (y :: ys) c := by
  simp [rippleAdd, byteMinusZero]

theorem rippleAdd_zero_right (x : Nat) (xs : List Nat) (c : Bool) :
    rippleAdd (x :: xs) [48] c = rippleAdd (x :: xs) [] c := by
  simp [rippleAdd, byteMinusZero]

theorem isDigits_reverse (s : GoString) : IsDigits s.reverse ↔ IsDigits s := by
  simp [IsDigits]

theorem valid_iff (s : GoString) :
    ValidDigitString s ↔ s ≠ [] ∧ IsDigits s ∧ (s = [48] ∨ NoTrail s.reverse) := by
  unfold ValidDigitString
  rcases s with _ | ⟨h, t⟩
  · simp
  · have : NoTrail (h :: t).reverse ↔ h ≠ 48 := by
      simp [NoTrail]
    rw [this]
    simp only [List.head?_cons, Option.some.injEq, List.cons.injEq]
    constructor
    · rintro ⟨a, b, c⟩
      refine ⟨a, b, ?_⟩
      by_cases h48 : h = 48
      · exact Or.inl (c h48)
      · exact Or.inr h48
    · rintro ⟨a, b, c⟩
      refine ⟨a, b, fun h48 => ?_⟩
      rcases c with c | c
      · exact c
      · exact absurd h48 c

theorem value_eq_leValue (s : GoString) : value s = leValue s.reverse := by
  have key : ∀ (s : GoString) (acc : Nat),
      s.foldl (fun acc b => 10 * acc + (b - 48)) acc = acc * 10 ^ s.length + leValue s.reverse := by
    intro s
    induction s with
    | nil => intro acc; simp [leValue]
    | cons h t ih =>
      intro acc
      rw [List.foldl_cons, ih]
      simp only [leValue, List.reverse_cons, List.map_append, Nat.ofDigits_append,
        List.length_map, List.length_reverse, List.map_cons, List.map_nil, Nat.ofDigits_singleton,
        List.length_cons]
      ring
  have := key s 0
  simpa [value] using this


/-! ## Canonical decimal strings -/

theorem decimal_reverse (k : Nat) (hk : k ≠ 0) :
    (decimal k).reverse = (Nat.digits 10 k).map (fun d => d + 48) := by
  simp [decimal, hk, List.map_reverse]

theorem decimal_valid (k : Nat) : ValidDigitString (decimal k) := by
  by_cases hk : k = 0
  · subst hk; simp [decimal, ValidDigitString, IsDigits]
  · rw [valid_iff]
    have hne : Nat.digits 10 k ≠ [] := by
      simpa [Nat.digits_ne_nil_iff_ne_zero] using hk
    refine ⟨?_, ?_, Or.inr ?_⟩
    · intro h
      have := congrArg List.reverse h
      rw [decimal_reverse k hk] at this
      simp at this
      exact hne this
    · rw [← isDigits_reverse, decimal_reverse k hk]
      intro b hb
      obtain ⟨d, hd, rfl⟩ := List.mem_map.1 hb
      have := Nat.digits_lt_base (by norm_num : (1 : Nat) < 10) hd
      omega
    · rw [decimal_reverse k hk]
      intro h
      rw [List.getLast_map]
      have := Nat.getLast_digit_ne_zero 10 hk
      omega

theorem value_decimal (k : Nat) : value (decimal k) = k := by
  by_cases hk : k = 0
  · subst hk; simp [decimal, value]
  · rw [value_eq_leValue, decimal_reverse k hk, leValue, List.map_map]
    have : ((fun b => b - 48) ∘ fun d => d + 48) = (id : Nat → Nat) := by
      funext d; simp
    rw [this, List.map_id, Nat.ofDigits_digits]

theorem valid_eq_decimal (s : GoString) (h : ValidDigitString s) : s = decimal (value s) := by
  rw [valid_iff] at h
  obtain ⟨hne, hd, h0 | hnt⟩ := h
  · subst h0; simp [decimal, value]
  · have hL1 : ∀ l ∈ s.reverse.map (fun b => b - 48), l < 10 := by
      intro l hl
      obtain ⟨b, hb, rfl⟩ := List.mem_map.1 hl
      have := hd b (List.mem_reverse.1 hb)
      omega
    have hne' : s.reverse ≠ [] := by simpa using hne
    have hL2 : ∀ h : s.reverse.map (fun b => b - 48) ≠ [],
        (s.reverse.map (fun b => b - 48)).getLast h ≠ 0 := by
      intro h
      rw [List.getLast_map]
      have h1 := hnt hne'
      have h2 := hd _ (List.mem_reverse.1 (List.getLast_mem hne'))
      omega
    have hdig := Nat.digits_ofDigits 10 (by norm_num) _ hL1 hL2
    have hv : value s = Nat.ofDigits 10 (s.reverse.map (fun b => b - 48)) := by
      rw [value_eq_leValue, leValue]
    have hv0 : value s ≠ 0 := by
      intro h0
      rw [← hv, h0] at hdig
      simp at hdig
      exact hne hdig
    apply List.reverse_injective
    rw [decimal_reverse _ hv0, hv, hdig, List.map_map]
    symm
    calc (s.reverse.map ((fun d => d + 48) ∘ fun b => b - 48))
        = s.reverse.map id := by
          apply List.map_congr_left
          intro b hb
          have := hd b (List.mem_reverse.1 hb)
          simp only [Function.comp, id]
          omega
      _ = s.reverse := List.map_id _

/-! ## `addStrings` on digit strings -/

theorem addStrings_isDigits (a b : GoString) (ha : IsDigits a) (hb : IsDigits b) :
    IsDigits (addStrings a b) := by
  rw [addStrings_eq, isDigits_reverse]
  exact (rippleAdd_spec _ _ false ((isDigits_reverse a).2 ha) ((isDigits_reverse b).2 hb)).1

theorem addStrings_value (a b : GoString) (ha : IsDigits a) (hb : IsDigits b) :
    value (addStrings a b) = value a + value b := by
  rw [addStrings_eq, value_eq_leValue, List.reverse_reverse, value_eq_leValue, value_eq_leValue]
  simpa using
    (rippleAdd_spec _ _ false ((isDigits_reverse a).2 ha) ((isDigits_reverse b).2 hb)).2

theorem addStrings_length (a b : GoString) :
    max a.length b.length ≤ (addStrings a b).length ∧
      (addStrings a b).length ≤ max a.length b.length + 1 := by
  rw [addStrings_eq]
  simpa using rippleAdd_length a.reverse b.reverse false

theorem addStrings_valid (a b : GoString) (ha : ValidDigitString a) (hb : ValidDigitString b) :
    ValidDigitString (addStrings a b) := by
  have hda := ha.2.1
  have hdb := hb.2.1
  have hlen := (addStrings_length a b).1
  have hne : addStrings a b ≠ [] := by
    intro h
    rw [h] at hlen
    have h1 : a.length ≤ max a.length b.length := le_max_left _ _
    have : a.length = 0 := by simp only [List.length_nil] at hlen; omega
    exact ha.1 (List.length_eq_zero.1 this)
  rw [valid_iff] at ha hb ⊢
  refine ⟨hne, addStrings_isDigits a b hda hdb, ?_⟩
  have hra : a.reverse ≠ [] := by simpa using ha.1
  have hrb : b.reverse ≠ [] := by simpa using hb.1
  rw [addStrings_eq, List.reverse_reverse]
  obtain ⟨-, -, a0 | na⟩ := ha <;> obtain ⟨-, -, b0 | nb⟩ := hb
  · subst a0; subst b0
    left; simp [rippleAdd, column, byteMinusZero, byteOfSum]
  · subst a0
    right
    obtain ⟨y, ys, hy⟩ := List.exists_cons_of_ne_nil hrb
    rw [hy] at nb ⊢
    have : IsDigits (y :: ys) := by rw [← hy]; exact (isDigits_reverse b).2 hdb
    show NoTrail (rippleAdd [48] (y :: ys) false)
    rw [rippleAdd_zero_left]
    exact rippleAdd_noTrail _ _ _ (by simp [IsDigits]) this noTrail_nil nb
  · subst b0
    right
    obtain ⟨x, xs, hx⟩ := List.exists_cons_of_ne_nil hra
    rw [hx] at na ⊢
    have : IsDigits (x :: xs) := by rw [← hx]; exact (isDigits_reverse a).2 hda
    show NoTrail (rippleAdd (x :: xs) [48] false)
    rw [rippleAdd_zero_right]
    exact rippleAdd_noTrail _ _ _ this (by simp [IsDigits]) na noTrail_nil
  · right
    exact rippleAdd_noTrail _ _ _ ((isDigits_reverse a).2 hda) ((isDigits_reverse b).2 hdb) na nb

theorem addStrings_decimal (a b : Nat) : addStrings (decimal a) (decimal b) = decimal (a + b) := by
  have hv := addStrings_valid _ _ (decimal_valid a) (decimal_valid b)
  rw [valid_eq_decimal _ hv, addStrings_value _ _ (decimal_valid a).2.1 (decimal_valid b).2.1,
    value_decimal, value_decimal]


theorem rippleAdd_top : ∀ (xs ys : List Nat) (c : Bool),
    (rippleAdd xs ys c).length = max xs.length ys.length + 1 →
      (rippleAdd xs ys c).getLast? = some 49 := by
  intro xs
  induction xs with
  | nil =>
    intro ys
    induction ys with
    | nil => intro c; cases c <;> simp [rippleAdd, byteOfSum]
    | cons y ys ih =>
      intro c h
      rw [rippleAdd] at h ⊢
      have h1 : (rippleAdd [] ys (column c 0 (byteMinusZero y)).2).length
          = max ([] : List Nat).length ys.length + 1 := by
        simp only [List.length_cons, List.length_nil] at h ⊢
        omega
      have h2 := ih _ h1
      have h3 : rippleAdd [] ys (column c 0 (byteMinusZero y)).2 ≠ [] := by
        intro h0; rw [h0] at h2; simp at h2
      obtain ⟨r, rs, hr⟩ := List.exists_cons_of_ne_nil h3
      rw [hr] at h2 ⊢
      rw [List.getLast?_cons_cons]
      exact h2
  | cons x xs ih =>
    intro ys c h
    rcases ys with _ | ⟨y, ys⟩
    · rw [rippleAdd] at h ⊢
      have h1 : (rippleAdd xs [] (column c (byteMinusZero x) 0).2).length
          = max xs.length ([] : List Nat).length + 1 := by
        simp only [List.length_cons, List.length_nil] at h ⊢
        omega
      have h2 := ih _ _ h1
      have h3 : rippleAdd xs [] (column c (byteMinusZero x) 0).2 ≠ [] := by
        intro h0; rw [h0] at h2; simp at h2
      obtain ⟨r, rs, hr⟩ := List.exists_cons_of_ne_nil h3
      rw [hr] at h2 ⊢
      rw [List.getLast?_cons_cons]
      exact h2
    · rw [rippleAdd] at h ⊢
      have h1 : (rippleAdd xs ys (column c (byteMinusZero x) (byteMinusZero y)).2).length
          = max xs.length ys.length + 1 := by
        simp only [List.length_cons] at h ⊢
        omega
      have h2 := ih _ _ h1
      have h3 : rippleAdd xs ys (column c (byteMinusZero x) (byteMinusZero y)).2 ≠ [] := by
        intro h0; rw [h0] at h2; simp at h2
      obtain ⟨r, rs, hr⟩ := List.exists_cons_of_ne_nil h3
      rw [hr] at h2 ⊢
      rw [List.getLast?_cons_cons]
      exact h2

theorem addStrings_head (a b : GoString)
    (h : (addStrings a b).length = max a.length b.length + 1) :
    (addStrings a b).head? = some 49 := by
  rw [addStrings_eq] at h ⊢
  rw [List.head?_reverse]
  apply rippleAdd_top
  simpa using h

/-! ## Claims on `addStrings` -/

/-- C1: for all strings `a`, `b` of ASCII decimal digits, of any length, `addStrings a b`
is a string of digits whose numeric value is `value a + value b`; in particular
`addStrings "999999999999999999" "1" = "1000000000000000000"`. -/
theorem C1_addStrings_value (a b : GoString) (ha : IsDigits a) (hb : IsDigits b) :
    IsDigits (addStrings a b) ∧ value (addStrings a b) = value a + value b ∧
      addStrings (lit "999999999999999999") (lit "1") = lit "1000000000000000000" :=
  ⟨addStrings_isDigits a b ha hb, addStrings_value a b ha hb, by decide⟩

/-- Witness of C1 at a 30-digit operand, beyond the 64-bit range. -/
theorem C1_addStrings_value_witness :
    IsDigits (lit "123456789012345678901234567890") ∧ IsDigits (lit "987654321") ∧
      value (addStrings (lit "123456789012345678901234567890") (lit "987654321"))
        = value (lit "123456789012345678901234567890") + value (lit "987654321") :=
  ⟨by decide, by decide,
    (C1_addStrings_value (lit "123456789012345678901234567890") (lit "987654321")
      (by decide) (by decide)).2.1⟩

/-- C5: for valid digit strings `a`, `b` (not empty, digits only, no leading zero unless the
string is `"0"`), `addStrings a b` is a valid digit string, and its length is
`max (len a) (len b)` or that plus one; in the second case it starts with a single `"1"`,
the final carry. -/
theorem C5_addStrings_valid (a b : GoString) (ha : ValidDigitString a)
    (hb : ValidDigitString b) :
    ValidDigitString (addStrings a b) ∧
      ((addStrings a b).length = max a.length b.length ∨
        ((addStrings a b).length = max a.length b.length + 1 ∧
          (addStrings a b).head? = some 49)) := by
  refine ⟨addStrings_valid a b ha hb, ?_⟩
  have h := addStrings_length a b
  by_cases h1 : (addStrings a b).length = max a.length b.length
  · exact Or.inl h1
  · have h2 : (addStrings a b).length = max a.length b.length + 1 := by omega
    exact Or.inr ⟨h2, addStrings_head a b h2⟩

/-- Witness of C5: `"95" + "7" = "102"`, one digit longer than the longer operand. -/
theorem C5_addStrings_valid_witness :
    ValidDigitString (lit "95") ∧ ValidDigitString (lit "7") ∧
      ValidDigitString (addStrings (lit "95") (lit "7")) ∧
      addStrings (lit "95") (lit "7") = lit "102" :=
  ⟨by decide, by decide,
    (C5_addStrings_valid (lit "95") (lit "7") (by decide) (by decide)).1, by decide⟩

/-! ## `getFibonacci` -/

theorem fibStrings_length (n : Nat) : (fibStrings n).length = n := by
  simp [fibStrings]

theorem fibStrings_succ (n : Nat) : fibStrings (n + 1) = fibStrings n ++ [decimal (Nat.fib n)] := by
  simp [fibStrings, List.range_succ]

theorem fibStrings_getElem? (n i : Nat) (h : i < n) :
    (fibStrings n)[i]? = some (decimal (Nat.fib i)) := by
  simp [fibStrings, List.getElem?_range h]

theorem sliceGet_append_left (l rest : List GoString) (i : Nat) (h : i < l.length) :
    sliceGet (l ++ rest) (i : Int) = (l[i]?) := by
  simp [sliceGet, List.getElem?_append_left h]

theorem sliceSet_append_cons (l rest : List GoString) (r v : GoString) :
    sliceSet (l ++ r :: rest) (l.length : Int) v = some (l ++ v :: rest) := by
  have h : (l.length : Int) < ((l ++ r :: rest).length : Nat) := by
    simp
  simp only [sliceSet, Int.toNat_ofNat]
  rw [if_pos ⟨by omega, h⟩]
  congr 1
  induction l with
  | nil => simp
  | cons p P ih => simp [ih]

theorem getFibonacciLoop_run (ctx : Context) (hctx : ∀ k, ctx k = none) (N : Nat) :
    ∀ (fuel i : Nat) (rest : List GoString), 2 ≤ i → i ≤ N → N - i + 1 ≤ fuel →
      rest.length = N - i →
      getFibonacciLoop ctx (N : Int) fuel (i : Int) (fibStrings i ++ rest)
        = Outcome.ret (some (fibStrings N), none) := by
  intro fuel
  induction fuel with
  | zero => intro i rest _ _ h; omega
  | succ fuel ih =>
    intro i rest h2 hi hf hrest
    rw [getFibonacciLoop]
    by_cases hlt : (i : Int) < (N : Int)
    · rw [if_pos hlt, hctx]
      simp only
      obtain ⟨m, rfl⟩ : ∃ m, i = m + 2 := ⟨i - 2, by omega⟩
      have e1 : ((m + 2 : Nat) : Int) - 1 = ((m + 1 : Nat) : Int) := by omega
      have e2 : ((m + 2 : Nat) : Int) - 2 = ((m : Nat) : Int) := by omega
      have l1 : m + 1 < (fibStrings (m + 2)).length := by rw [fibStrings_length]; omega
      have l0 : m < (fibStrings (m + 2)).length := by rw [fibStrings_length]; omega
      rw [e1, e2, sliceGet_append_left _ _ _ l1, sliceGet_append_left _ _ _ l0,
        fibStrings_getElem? _ _ (by omega), fibStrings_getElem? _ _ (by omega)]
      simp only
      obtain ⟨r, rest1, rfl⟩ : ∃ r rest1, rest = r :: rest1 := by
        rcases rest with _ | ⟨r, rest1⟩
        · simp at hrest; omega
        · exact ⟨r, rest1, rfl⟩
      have e3 : ((m + 2 : Nat) : Int) = ((fibStrings (m + 2)).length : Int) := by
        rw [fibStrings_length]
      rw [e3, sliceSet_append_cons, addStrings_decimal]
      simp only
      have e4 : ((fibStrings (m + 2)).length : Int) + 1 = ((m + 2 + 1 : Nat) : Int) := by
        rw [fibStrings_length]; simp
      have e5 : Nat.fib (m + 1) + Nat.fib m = Nat.fib (m + 2) := by
        rw [Nat.fib_add_two]; omega
      have e6 : fibStrings (m + 2) ++ decimal (Nat.fib (m + 2)) :: rest1
          = fibStrings (m + 2 + 1) ++ rest1 := by
        rw [fibStrings_succ (m + 2)]; simp
      rw [e4, e5, e6]
      apply ih
      · omega
      · omega
      · omega
      · simp at hrest; omega
    · rw [if_neg hlt]
      have : i = N := by omega
      subst this
      have : rest = [] := by
        apply List.length_eq_zero.1; omega
      subst this
      simp

theorem makeSlice_cast (maxLen : Int) (C : Nat) (hC : (C : Int) ≤ maxLen) :
    makeSlice maxLen (C : Int) = some (List.replicate C []) := by
  simp [makeSlice, hC]

theorem getFibonacci_run (maxLen : Int) (ctx : Context) (hctx : ∀ k, ctx k = none) (N : Nat)
    (hN : (N : Int) ≤ maxLen) :
    getFibonacci maxLen ctx (N : Int) = Outcome.ret (some (fibStrings N), none) := by
  have h0 : lit "0" = decimal (Nat.fib 0) := by simp [decimal]; decide
  have h1 : lit "1" = decimal (Nat.fib 1) := by simp [decimal]; decide
  rcases N with _ | _ | N
  · rw [getFibonacci, makeSlice_cast maxLen 0 hN]
    simp [getFibonacciLoop, fibStrings]
  · rw [getFibonacci, makeSlice_cast maxLen (0 + 1) hN]
    simp [getFibonacciLoop, fibStrings, h0, List.range_succ]
  · have hm : makeSlice maxLen ((N + 1 + 1 : Nat) : Int) = some (List.replicate (N + 2) []) :=
      makeSlice_cast maxLen (N + 1 + 1) hN
    have hs : fibStrings 2 = [decimal (Nat.fib 0), decimal (Nat.fib 1)] := by
      simp [fibStrings, List.range_succ]
    have := getFibonacciLoop_run ctx hctx (N + 2) (N + 2 + 1) 2 (List.replicate N [])
      le_rfl (by omega) (by omega) (by simp)
    rw [getFibonacci, hm]
    simp only
    rw [if_pos (by omega), if_pos (by omega)]
    simp only [List.replicate_succ, List.set_cons_zero, List.set_cons_succ, h0, h1,
      Int.toNat_ofNat]
    rw [hs] at this
    simpa using this


theorem getFibonacciLoop_error (ctx : Context) (n : Int) :
    ∀ (fuel : Nat) (i : Int) (seq : List GoString) (e : GoError),
      seqError (getFibonacciLoop ctx n fuel i seq) = some e → ∃ c, e = ctxDoneError c := by
  intro fuel
  induction fuel with
  | zero => intro i seq e h; simp [getFibonacciLoop, seqError] at h
  | succ fuel ih =>
    intro i seq e h
    rw [getFibonacciLoop] at h
    split at h
    · split at h
      · rename_i c _
        simp only [seqError, Option.some.injEq] at h
        exact ⟨c, h.symm⟩
      · split at h
        · split at h
          · exact ih _ _ _ h
          · simp [seqError] at h
        · simp [seqError] at h
    · simp [seqError] at h

theorem getFibonacci_error (maxLen : Int) (ctx : Context) (n : Int) (e : GoError)
    (h : seqError (getFibonacci maxLen ctx n) = some e) : ∃ c, e = ctxDoneError c := by
  rw [getFibonacci] at h
  split at h
  · simp [seqError] at h
  · exact getFibonacciLoop_error ctx n _ _ _ e h

theorem ctxDoneError_cases (c : CtxErr) :
    ctxDoneError c = GoError.ErrContextCanceled ∨ ctxDoneError c = GoError.contextDeadlineExceeded := by
  cases c <;> simp [ctxDoneError, errorsIs, CtxErr.toError]

theorem GetFibonacci_accepted (maxLen : Int) (s : fibonacciService) (ctx : Context) (n : Int)
    (h0 : ¬ n < 0) (hn : ¬ n > s.NLimit) :
    seqError (GetFibonacci maxLen s ctx n).1 = seqError (getFibonacci maxLen ctx n) ∧
      (GetFibonacci maxLen s ctx n).2 = 1 := by
  rw [GetFibonacci, if_neg h0, if_neg hn]
  rcases hg : getFibonacci maxLen ctx n with ⟨res, err⟩ | _ | _
  · rcases err with _ | e <;> simp [seqError]
  · simp [seqError]
  · simp [seqError]

/-! ## Claims on `GetFibonacci` -/

/-- C2, as stated, fails: under the limit `NLimit = 2 ^ 63 - 1` the request `n = 2 ^ 60`
is within `0 ≤ n ≤ NLimit`, the context is never done, and `make([]string, n)` panics
(`makeslice: len out of range`), so `GetFibonacci` does not return a sequence. -/
theorem C2_counterexample :
    (0 : Int) ≤ 1152921504606846976 ∧
      (1152921504606846976 : Int) ≤ (NewService 10 2 9223372036854775807 200).NLimit ∧
      GetFibonacci maxLen64 (NewService 10 2 9223372036854775807 200) background
        1152921504606846976 = (Outcome.panicked, 1) := by
  decide

/-- C2 (amended): for `0 ≤ n ≤ NLimit` with `n` no larger than the length `make` can
allocate, and a cancellation signal that is never signalled, `GetFibonacci n` succeeds with
a sequence of length `n` whose element `i` is the canonical decimal string of the Fibonacci
number `F(i)` (a valid digit string of value `F(i)`); the sequence is empty for `n = 0`,
`["0"]` for `n = 1` and `["0","1","1","2","3","5","8","13","21","34"]` for `n = 10`. -/
theorem C2_GetFibonacci_canonical (maxLen : Int) (s : fibonacciService) (ctx : Context)
    (n : Int) (h0 : 0 ≤ n) (hn : n ≤ s.NLimit) (hmax : n ≤ maxLen)
    (hctx : ∀ k, ctx k = none) :
    (GetFibonacci maxLen s ctx n).1 = Outcome.ret (some (fibStrings n.toNat), none) ∧
      (fibStrings n.toNat).length = n.toNat ∧
      (∀ i, i < n.toNat → (fibStrings n.toNat)[i]? = some (decimal (Nat.fib i)) ∧
        ValidDigitString (decimal (Nat.fib i)) ∧ value (decimal (Nat.fib i)) = Nat.fib i) ∧
      fibStrings 0 = [] ∧ fibStrings 1 = [lit "0"] ∧
      fibStrings 10 = [lit "0", lit "1", lit "1", lit "2", lit "3", lit "5", lit "8",
        lit "13", lit "21", lit "34"] := by
  obtain ⟨N, rfl⟩ := Int.eq_ofNat_of_zero_le h0
  refine ⟨?_, fibStrings_length _, fun i hi => ⟨fibStrings_getElem? _ _ hi, decimal_valid _,
    value_decimal _⟩, ?_, ?_, ?_⟩
  · rw [GetFibonacci, if_neg (by omega), if_neg (by omega),
      getFibonacci_run maxLen ctx hctx N hmax]
    simp
  · simp [fibStrings]
  · have : lit "0" = [48] := by decide
    simp [fibStrings, decimal, this, List.range_succ]
  · have : [lit "0", lit "1", lit "1", lit "2", lit "3", lit "5", lit "8",
        lit "13", lit "21", lit "34"]
        = [[48], [49], [49], [50], [51], [53], [56], [49, 51], [50, 49], [51, 52]] := by decide
    rw [this]
    norm_num [fibStrings, decimal, List.range_succ, Nat.fib_add_two]

/-- Witness of C2 (amended): the service of the test suite (limits 10, 2, 100, 200) at
`n = 10`. -/
theorem C2_GetFibonacci_canonical_witness :
    (GetFibonacci maxLen64 (NewService 10 2 100 200) background 10).1
        = Outcome.ret (some (fibStrings (10 : Int).toNat), none) ∧
      (GetFibonacci maxLen64 (NewService 10 2 100 200) background 10).1
        = Outcome.ret (some [lit "0", lit "1", lit "1", lit "2", lit "3", lit "5", lit "8",
            lit "13", lit "21", lit "34"], none) :=
  ⟨(C2_GetFibonacci_canonical maxLen64 (NewService 10 2 100 200) background 10 (by decide)
      (by decide) (by decide) (fun _ => rfl)).1, by decide⟩

/-- C6, as stated, fails: with `NLimit = -5` the request `n = -3` exceeds `NLimit`, yet
the error is `ErrNegativeN`, which does not match `ErrTooLargeN`. -/
theorem C6_counterexample :
    ¬ (failsWith (GetFibonacci maxLen64 (NewService 10 2 (-5) 200) background (-3)).1
          GoError.ErrTooLargeN = true ↔
        (-3 : Int) > (NewService 10 2 (-5) 200).NLimit) := by
  decide

/-- C6 (amended): for every limit configuration, context and integer `n`, `GetFibonacci n`
fails with an error matching `ErrNegativeN` if and only if `n < 0`, and with an error
matching `ErrTooLargeN` if and only if `0 ≤ n` and `n > NLimit`; in both cases the result
is `nil` and `getFibonacci` is not called. -/
theorem C6_GetFibonacci_validation (maxLen : Int) (s : fibonacciService) (ctx : Context)
    (n : Int) :
    (failsWith (GetFibonacci maxLen s ctx n).1 GoError.ErrNegativeN = true ↔ n < 0) ∧
      (failsWith (GetFibonacci maxLen s ctx n).1 GoError.ErrTooLargeN = true ↔
        0 ≤ n ∧ n > s.NLimit) ∧
      (n < 0 → GetFibonacci maxLen s ctx n = (Outcome.ret (none, some GoError.ErrNegativeN), 0)) ∧
      (0 ≤ n → n > s.NLimit → ∃ e, errorsIs e GoError.ErrTooLargeN = true ∧
        GetFibonacci maxLen s ctx n = (Outcome.ret (none, some e), 0)) := by
  have hneg : n < 0 →
      GetFibonacci maxLen s ctx n = (Outcome.ret (none, some GoError.ErrNegativeN), 0) := by
    intro h; rw [GetFibonacci, if_pos h]
  have hbig : 0 ≤ n → n > s.NLimit → GetFibonacci maxLen s ctx n =
      (Outcome.ret (none, some (GoError.errorf "%w: must not exceed %d" GoError.ErrTooLargeN
        s.NLimit)), 0) := by
    intro h1 h2; rw [GetFibonacci, if_neg (by omega), if_pos h2]
  have hok : ¬ n < 0 → ¬ n > s.NLimit → ∀ t, t = GoError.ErrNegativeN ∨ t = GoError.ErrTooLargeN →
      failsWith (GetFibonacci maxLen s ctx n).1 t = false := by
    intro h1 h2 t ht
    have h3 := (GetFibonacci_accepted maxLen s ctx n h1 h2).1
    unfold failsWith
    rw [h3]
    rcases hg : seqError (getFibonacci maxLen ctx n) with _ | e
    · rfl
    · obtain ⟨c, rfl⟩ := getFibonacci_error maxLen ctx n e hg
      rcases ctxDoneError_cases c with h | h <;> rcases ht with rfl | rfl <;>
        simp [h, errorsIs]
  refine ⟨?_, ?_, hneg, fun h1 h2 => ⟨_, ?_, hbig h1 h2⟩⟩
  · constructor
    · intro h
      by_contra hn
      by_cases hb : n > s.NLimit
      · rw [hbig (by omega) hb] at h
        simp [failsWith, seqError, errorsIs] at h
      · rw [hok hn hb _ (Or.inl rfl)] at h
        exact absurd h (by simp)
    · intro h
      rw [hneg h]
      simp [failsWith, seqError, errorsIs]
  · constructor
    · intro h
      by_contra hn
      by_cases h0 : n < 0
      · rw [hneg h0] at h
        simp [failsWith, seqError, errorsIs] at h
      · have hb : ¬ n > s.NLimit := fun hb => hn ⟨by omega, hb⟩
        rw [hok h0 hb _ (Or.inr rfl)] at h
        exact absurd h (by simp)
    · rintro ⟨h1, h2⟩
      rw [hbig h1 h2]
      simp [failsWith, seqError, errorsIs]
  · simp [errorsIs]

/-- Witness of C6 (amended): the two rejections of the test suite, limits
(10, 2, 100, 200), at `n = -5` and `n = 150`. -/
theorem C6_GetFibonacci_validation_witness :
    GetFibonacci maxLen64 (NewService 10 2 100 200) background (-5)
        = (Outcome.ret (none, some GoError.ErrNegativeN), 0) ∧
      failsWith (GetFibonacci maxLen64 (NewService 10 2 100 200) background 150).1
        GoError.ErrTooLargeN = true :=
  ⟨(C6_GetFibonacci_validation maxLen64 (NewService 10 2 100 200) background (-5)).2.2.1
      (by decide),
    (C6_GetFibonacci_validation maxLen64 (NewService 10 2 100 200) background 150).2.1.2
      ⟨by decide, by decide⟩⟩

/-- C10, as stated, fails: for `n = 2` (within `NLimit = 100`) and an already cancelled
context `GetFibonacci` succeeds and returns `["0", "1"]`. -/
theorem C10_counterexample :
    (0 : Int) ≤ 2 ∧ (2 : Int) ≤ (NewService 10 2 100 200).NLimit ∧
      (GetFibonacci maxLen64 (NewService 10 2 100 200) canceledCtx 2).1
        = Outcome.ret (some [lit "0", lit "1"], none) := by
  decide

/-- C10 (amended): for `3 ≤ n ≤ NLimit` with `n` no larger than the length `make` can
allocate, `GetFibonacci n` called with a context that is already cancelled at the first
poll fails with `ErrContextCanceled` and returns the `nil` sequence. -/
theorem C10_GetFibonacci_canceled (maxLen : Int) (s : fibonacciService) (ctx : Context)
    (n : Int) (h3 : 3 ≤ n) (hn : n ≤ s.NLimit) (hmax : n ≤ maxLen)
    (hctx : ctx 0 = some CtxErr.Canceled) :
    (GetFibonacci maxLen s ctx n).1 = Outcome.ret (none, some GoError.ErrContextCanceled) := by
  have hm : makeSlice maxLen n = some (List.replicate n.toNat []) := by
    simp only [makeSlice]
    rw [if_pos ⟨by omega, hmax⟩]
  have hg : getFibonacci maxLen ctx n = Outcome.ret (none, some GoError.ErrContextCanceled) := by
    rw [getFibonacci, hm]
    simp only
    rw [getFibonacciLoop, if_pos (by omega)]
    simp [hctx, ctxDoneError, errorsIs, CtxErr.toError]
  rw [GetFibonacci, if_neg (by omega), if_neg (by omega), hg]

/-- Witness of C10 (amended): the test suite's service at `n = 10`, cancelled context. -/
theorem C10_GetFibonacci_canceled_witness :
    (GetFibonacci maxLen64 (NewService 10 2 100 200) canceledCtx 10).1
      = Outcome.ret (none, some GoError.ErrContextCanceled) :=
  C10_GetFibonacci_canceled maxLen64 (NewService 10 2 100 200) canceledCtx 10 (by decide)
    (by decide) (by decide) rfl

/-! ## `processChunks` -/

theorem fibRange_succ (t len : Nat) :
    fibRange t (len + 1) = decimal (Nat.fib t) :: fibRange (t + 1) len := by
  simp [fibRange, List.range'_succ]

theorem fibRange_length (t len : Nat) : (fibRange t len).length = len := by
  simp [fibRange]

theorem fillChunk_run (t cur : Nat) :
    ∀ (fuel j : Nat) (A B : List GoString), j ≤ cur → cur - j + 1 ≤ fuel → A.length = j →
      cur - j ≤ B.length →
      fillChunk (cur : Int) fuel (j : Int) (decimal (Nat.fib (t + j)))
          (decimal (Nat.fib (t + j + 1))) (A ++ B)
        = Outcome.ret (decimal (Nat.fib (t + cur)), decimal (Nat.fib (t + cur + 1)),
            A ++ fibRange (t + j) (cur - j) ++ B.drop (cur - j)) := by
  intro fuel
  induction fuel with
  | zero => intro j A B _ h; omega
  | succ fuel ih =>
    intro j A B hj hf hA hB
    rw [fillChunk]
    by_cases hlt : (j : Int) < (cur : Int)
    · rw [if_pos hlt]
      obtain ⟨b, B1, rfl⟩ : ∃ b B1, B = b :: B1 := by
        rcases B with _ | ⟨b, B1⟩
        · simp at hB; omega
        · exact ⟨b, B1, rfl⟩
      obtain ⟨d, hd⟩ : ∃ d, cur - j = d + 1 := ⟨cur - j - 1, by omega⟩
      have e1 : (j : Int) = (A.length : Int) := by rw [hA]
      rw [e1, sliceSet_append_cons, addStrings_decimal]
      simp only
      have e2 : Nat.fib (t + j) + Nat.fib (t + j + 1) = Nat.fib (t + (j + 1) + 1) := by
        rw [show t + (j + 1) + 1 = (t + j) + 2 by omega, Nat.fib_add_two]
      have e3 : A ++ decimal (Nat.fib (t + j)) :: B1 = (A ++ [decimal (Nat.fib (t + j))]) ++ B1 := by
        simp
      have e4 : (A.length : Int) + 1 = ((j + 1 : Nat) : Int) := by rw [hA]; simp
      rw [e2, e3, e4, show t + j + 1 = t + (j + 1) by omega]
      rw [ih (j + 1) (A ++ [decimal (Nat.fib (t + j))]) B1 (by omega) (by omega) (by simp [hA])
        (by simp at hB; omega)]
      have e5 : cur - (j + 1) = d := by omega
      rw [hd, e5, fibRange_succ, show t + (j + 1) = t + j + 1 by omega]
      simp
    · rw [if_neg hlt]
      have : j = cur := by omega
      subst this
      simp [fibRange]

theorem emitted_cast (N C k : Nat) : emitted (N : Int) (C : Int) k = min (k * C) N := by
  rw [emitted, ← Nat.cast_mul, ← Nat.cast_min, Int.toNat_ofNat]

theorem chunkAt_length (N C k : Nat) :
    (chunkAt (N : Int) (C : Int) k).length = min ((k + 1) * C) N - min (k * C) N := by
  rw [chunkAt, fibRange_length, emitted_cast, emitted_cast]

theorem callsUpTo_length (n cs : Int) (k : Nat) : (callsUpTo n cs k).length = k := by
  simp [callsUpTo]

theorem callsUpTo_succ (n cs : Int) (k : Nat) :
    callsUpTo n cs (k + 1) = callsUpTo n cs k ++ [(chunkAt n cs k, (k : Int) * cs)] := by
  simp [callsUpTo, List.range_succ]

theorem processChunksLoop_step (ctx : Context) (send : SendFunc) (N C k : Nat)
    (hk : k * C < N) (hctx : ctx k = none) (fuel : Nat)
    (chunk : List GoString) (calls : List Call) (hlen : chunk.length = C) :
    ∃ chunk1 : List GoString, chunk1.length = C ∧
      processChunksLoop ctx (N : Int) (C : Int) send (fuel + 1) ((k : Int) * (C : Int)) k
          (decimal (Nat.fib (emitted N C k))) (decimal (Nat.fib (emitted N C k + 1))) chunk calls
        = match send calls.length (chunkAt N C k) ((k : Int) * (C : Int)) with
          | some err =>
            (Outcome.ret (some err), calls ++ [(chunkAt N C k, (k : Int) * (C : Int))])
          | none =>
            processChunksLoop ctx (N : Int) (C : Int) send fuel (((k + 1 : Nat) : Int) * (C : Int))
              (k + 1) (decimal (Nat.fib (emitted N C (k + 1))))
              (decimal (Nat.fib (emitted N C (k + 1) + 1))) chunk1
              (calls ++ [(chunkAt N C k, (k : Int) * (C : Int))]) := by
  have hmul : (k + 1) * C = k * C + C := by ring
  have hek : emitted (N : Int) (C : Int) k = k * C := by
    rw [emitted_cast]; omega
  have hek1 : emitted (N : Int) (C : Int) (k + 1) = min (k * C + C) N := by
    rw [emitted_cast, hmul]
  obtain ⟨cur, hcur⟩ : ∃ cur, cur = min (k * C + C) N - k * C := ⟨_, rfl⟩
  have hchunk : chunkAt (N : Int) (C : Int) k = fibRange (k * C) cur := by
    rw [chunkAt, hek, hek1, hcur]
  have hcurC : cur ≤ C := by omega
  have hi : (k : Int) * (C : Int) = ((k * C : Nat) : Int) := by push_cast; ring
  have hi1 : ((k + 1 : Nat) : Int) * (C : Int) = ((k * C : Nat) : Int) + (C : Int) := by
    push_cast; ring
  have hcurI : (if ((k * C : Nat) : Int) + (C : Int) > (N : Int) then (N : Int)
      else ((k * C : Nat) : Int) + (C : Int)) - ((k * C : Nat) : Int) = (cur : Int) := by
    split_ifs <;> omega
  have hfill := fillChunk_run (k * C) cur (cur + 1) 0 [] chunk (by omega) (by omega) rfl
    (by omega)
  simp only [Nat.add_zero, Nat.cast_zero, List.nil_append, Nat.sub_zero] at hfill
  have hpre : slicePrefix (fibRange (k * C) cur ++ chunk.drop cur) (cur : Int)
      = some (fibRange (k * C) cur) := by
    have h1 : (cur : Int) ≤ ((fibRange (k * C) cur ++ chunk.drop cur).length : Nat) := by
      simp [fibRange_length]
    simp only [slicePrefix, Int.toNat_ofNat]
    rw [if_pos ⟨by omega, h1⟩]
    rw [List.take_append_of_le_length (by rw [fibRange_length])]
    rw [List.take_of_length_le (by rw [fibRange_length])]
  refine ⟨fibRange (k * C) cur ++ chunk.drop cur, ?_, ?_⟩
  · simp [fibRange_length, hlen]; omega
  · rw [processChunksLoop, if_pos (by rw [hi]; omega), hctx]
    simp only
    rw [hi, hcurI, hek, Int.toNat_ofNat, hfill]
    simp only
    rw [hpre, hchunk, hek1, hi1]
    have hsum : k * C + cur = min (k * C + C) N := by omega
    rw [hsum]


theorem processChunksLoop_prefix (ctx : Context) (send : SendFunc) (N C : Nat) :
    ∀ K : Nat, (∀ j, j < K → j * C < N) → (∀ j, j < K → ctx j = none) →
      (∀ j, j < K → send j (chunkAt N C j) ((j : Int) * (C : Int)) = none) →
      ∀ (fuel : Nat) (chunk : List GoString), chunk.length = C →
        ∃ chunk1 : List GoString, chunk1.length = C ∧
          processChunksLoop ctx (N : Int) (C : Int) send (fuel + K) 0 0 (lit "0") (lit "1")
              chunk []
            = processChunksLoop ctx (N : Int) (C : Int) send fuel ((K : Int) * (C : Int)) K
                (decimal (Nat.fib (emitted N C K))) (decimal (Nat.fib (emitted N C K + 1)))
                chunk1 (callsUpTo N C K) := by
  intro K
  induction K with
  | zero =>
    intro _ _ _ fuel chunk hlen
    refine ⟨chunk, hlen, ?_⟩
    have h0 : lit "0" = decimal (Nat.fib 0) := by simp [decimal]; decide
    have h1 : lit "1" = decimal (Nat.fib 1) := by simp [decimal]; decide
    have he : emitted (N : Int) (C : Int) 0 = 0 := by rw [emitted_cast]; simp
    rw [he, ← h0, ← h1]
    simp [callsUpTo]
  | succ K ih =>
    intro hlt hctx hsend fuel chunk hlen
    obtain ⟨chunk1, hlen1, h1⟩ := ih (fun j hj => hlt j (by omega)) (fun j hj => hctx j (by omega))
      (fun j hj => hsend j (by omega)) (fuel + 1) chunk hlen
    obtain ⟨chunk2, hlen2, h2⟩ := processChunksLoop_step ctx send N C K (hlt K (by omega))
      (hctx K (by omega)) fuel chunk1 (callsUpTo N C K) hlen1
    refine ⟨chunk2, hlen2, ?_⟩
    rw [show fuel + (K + 1) = fuel + 1 + K by omega, h1, h2, callsUpTo_length,
      hsend K (by omega), callsUpTo_succ]

theorem numChunks_cast (N C : Nat) (hC : 1 ≤ C) :
    numChunks (N : Int) (C : Int) = (N + C - 1) / C := by
  have h : (N : Int) + (C : Int) - 1 = ((N + C - 1 : Nat) : Int) := by omega
  rw [numChunks, h, ← Int.natCast_div, Int.toNat_ofNat]

theorem numChunks_spec (N C : Nat) (hC : 1 ≤ C) :
    N ≤ (N + C - 1) / C * C ∧ ∀ j, j < (N + C - 1) / C → j * C < N := by
  have h1 := Nat.div_mul_le_self (N + C - 1) C
  have h2 := Nat.lt_div_mul_add (a := N + C - 1) (b := C) (by omega)
  refine ⟨by omega, fun j hj => ?_⟩
  have h3 : (j + 1) * C ≤ (N + C - 1) / C * C := Nat.mul_le_mul_right C (by omega)
  have h4 : (j + 1) * C = j * C + C := by ring
  omega

theorem processChunksLoop_exit (ctx : Context) (send : SendFunc) (n cs i : Int) (hi : ¬ i < n)
    (fuel iteration : Nat) (p1 p2 : GoString) (chunk : List GoString) (calls : List Call) :
    processChunksLoop ctx n cs send (fuel + 1) i iteration p1 p2 chunk calls
      = (Outcome.ret none, calls) := by
  rw [processChunksLoop, if_neg hi]

theorem processChunksLoop_done (ctx : Context) (send : SendFunc) (n cs i : Int) (hi : i < n)
    (fuel iteration : Nat) (e : CtxErr) (he : ctx iteration = some e)
    (p1 p2 : GoString) (chunk : List GoString) (calls : List Call) :
    processChunksLoop ctx n cs send (fuel + 1) i iteration p1 p2 chunk calls
      = (Outcome.ret (some (ctxDoneError e)), calls) := by
  rw [processChunksLoop, if_pos hi, he]

/-- A complete run: no cancellation, no failing delivery. -/
theorem processChunks_complete (maxLen : Int) (ctx : Context) (send : SendFunc) (N C : Nat) (hC : 1 ≤ C)
    (hmax : (C : Int) ≤ maxLen)
    (hctx : ∀ j, j < numChunks N C → ctx j = none)
    (hsend : ∀ j, j < numChunks N C → send j (chunkAt N C j) ((j : Int) * (C : Int)) = none)
    (fuel : Nat) (hf : numChunks N C < fuel) :
    processChunks fuel maxLen ctx N C send
      = (Outcome.ret none, callsUpTo N C (numChunks N C)) := by
  have hK := numChunks_cast N C hC
  obtain ⟨hN, hlt⟩ := numChunks_spec N C hC
  rw [← hK] at hN hlt
  obtain ⟨f, rfl⟩ : ∃ f, fuel = f + 1 + numChunks N C := ⟨fuel - 1 - numChunks N C, by omega⟩
  obtain ⟨chunk1, -, h1⟩ := processChunksLoop_prefix ctx send N C (numChunks N C) hlt hctx hsend
    (f + 1) (List.replicate C []) (by simp)
  rw [processChunks, makeSlice_cast maxLen C hmax]
  simp only
  rw [h1, processChunksLoop_exit]
  have : ((numChunks (N : Int) (C : Int) * C : Nat) : Int)
      = (numChunks (N : Int) (C : Int) : Int) * (C : Int) := by push_cast; rfl
  omega

/-- A run stopped by the `(K + 1)`-st delivery, which fails with `e`. -/
theorem processChunks_sendError (maxLen : Int) (ctx : Context) (send : SendFunc) (N C K : Nat)
    (hC : 1 ≤ C) (hmax : (C : Int) ≤ maxLen)
    (hK : K < numChunks N C) (hctx : ∀ j, j ≤ K → ctx j = none)
    (hsend : ∀ j, j < K → send j (chunkAt N C j) ((j : Int) * (C : Int)) = none)
    (e : GoError) (he : send K (chunkAt N C K) ((K : Int) * (C : Int)) = some e)
    (fuel : Nat) (hf : K < fuel) :
    processChunks fuel maxLen ctx N C send
      = (Outcome.ret (some e), callsUpTo N C (K + 1)) := by
  have hKc := numChunks_cast N C hC
  obtain ⟨-, hlt⟩ := numChunks_spec N C hC
  rw [← hKc] at hlt
  obtain ⟨f, rfl⟩ : ∃ f, fuel = f + 1 + K := ⟨fuel - 1 - K, by omega⟩
  obtain ⟨chunk1, hlen1, h1⟩ := processChunksLoop_prefix ctx send N C K
    (fun j hj => hlt j (by omega)) (fun j hj => hctx j (by omega)) hsend
    (f + 1) (List.replicate C []) (by simp)
  obtain ⟨chunk2, -, h2⟩ := processChunksLoop_step ctx send N C K (hlt K hK)
    (hctx K le_rfl) f chunk1 (callsUpTo N C K) hlen1
  rw [processChunks, makeSlice_cast maxLen C hmax]
  simp only
  rw [h1, h2, callsUpTo_length, he, callsUpTo_succ]

/-- A run stopped by the poll before chunk `K`, which finds the context done. -/
theorem processChunks_ctxDone (maxLen : Int) (ctx : Context) (send : SendFunc) (N C K : Nat)
    (hC : 1 ≤ C) (hmax : (C : Int) ≤ maxLen)
    (hK : K < numChunks N C) (hctx : ∀ j, j < K → ctx j = none)
    (hsend : ∀ j, j < K → send j (chunkAt N C j) ((j : Int) * (C : Int)) = none)
    (e : CtxErr) (he : ctx K = some e) (fuel : Nat) (hf : K < fuel) :
    processChunks fuel maxLen ctx N C send
      = (Outcome.ret (some (ctxDoneError e)), callsUpTo N C K) := by
  have hKc := numChunks_cast N C hC
  obtain ⟨-, hlt⟩ := numChunks_spec N C hC
  rw [← hKc] at hlt
  obtain ⟨f, rfl⟩ : ∃ f, fuel = f + 1 + K := ⟨fuel - 1 - K, by omega⟩
  obtain ⟨chunk1, hlen1, h1⟩ := processChunksLoop_prefix ctx send N C K
    (fun j hj => hlt j (by omega)) hctx hsend (f + 1) (List.replicate C []) (by simp)
  rw [processChunks, makeSlice_cast maxLen C hmax]
  simp only
  rw [h1, processChunksLoop_done _ _ _ _ _ _ _ _ _ he]
  have := hlt K hK
  have : ((K * C : Nat) : Int) = (K : Int) * (C : Int) := by push_cast; rfl
  omega

/-- A run whose buffer cannot be allocated panics before anything is polled or sent. -/
theorem processChunks_makePanics (fuel : Nat) (maxLen : Int) (ctx : Context) (n chunkSize : Int)
    (send : SendFunc) (h : chunkSize < 0 ∨ maxLen < chunkSize) :
    processChunks fuel maxLen ctx n chunkSize send = (Outcome.panicked, []) := by
  have hm : makeSlice maxLen chunkSize = none := by
    simp only [makeSlice]
    rw [if_neg (by omega)]
  rw [processChunks, hm]

theorem fibStrings_eq_fibRange (n : Nat) : fibStrings n = fibRange 0 n := by
  simp [fibStrings, fibRange, List.range_eq_range']

theorem fibStrings_append_fibRange (a d : Nat) :
    fibStrings a ++ fibRange a d = fibStrings (a + d) := by
  rw [fibStrings_eq_fibRange, fibStrings_eq_fibRange, fibRange, fibRange, fibRange,
    ← List.map_append]
  congr 1
  have := List.range'_append 0 a d 1
  simpa [Nat.add_comm] using this

theorem callsUpTo_flatten (N C K : Nat) :
    ((callsUpTo (N : Int) (C : Int) K).map Prod.fst).flatten
      = fibStrings (emitted (N : Int) (C : Int) K) := by
  induction K with
  | zero => simp [callsUpTo, emitted_cast, fibStrings]
  | succ K ih =>
    rw [callsUpTo_succ, List.map_append, List.flatten_append, ih]
    simp only [List.map_cons, List.map_nil, List.flatten_cons, List.flatten_nil, List.append_nil]
    rw [chunkAt, fibStrings_append_fibRange]
    congr 1
    have h1 : emitted (N : Int) (C : Int) K ≤ emitted (N : Int) (C : Int) (K + 1) := by
      rw [emitted_cast, emitted_cast]
      have : K * C ≤ (K + 1) * C := Nat.mul_le_mul_right C (by omega)
      omega
    omega

theorem emitted_numChunks (N C : Nat) (hC : 1 ≤ C) :
    emitted (N : Int) (C : Int) (numChunks (N : Int) (C : Int)) = N := by
  rw [emitted_cast, numChunks_cast N C hC]
  have := (numChunks_spec N C hC).1
  omega

theorem chunkAt_length_inner (N C k : Nat) (hC : 1 ≤ C)
    (hk : k + 1 < numChunks (N : Int) (C : Int)) :
    (chunkAt (N : Int) (C : Int) k).length = C := by
  rw [numChunks_cast N C hC] at hk
  have h1 := (numChunks_spec N C hC).2 (k + 1) hk
  have h2 : (k + 1) * C = k * C + C := by ring
  rw [chunkAt_length]
  omega

theorem chunkAt_length_last (N C k : Nat) (hC : 1 ≤ C)
    (hk : k + 1 = numChunks (N : Int) (C : Int)) :
    (chunkAt (N : Int) (C : Int) k).length = if N % C ≠ 0 then N % C else C := by
  rw [numChunks_cast N C hC] at hk
  obtain ⟨h0, h1⟩ := numChunks_spec N C hC
  rw [← hk] at h0
  have h3 := h1 k (by omega)
  have h2 : (k + 1) * C = k * C + C := by ring
  rw [chunkAt_length]
  obtain ⟨r, hr⟩ : ∃ r, N = r + k * C := ⟨N - k * C, by omega⟩
  have hm : N % C = r % C := by rw [hr, Nat.add_mul_mod_self_right]
  rw [hm]
  by_cases hrC : r = C
  · subst hrC
    simp
    omega
  · have : r < C := by omega
    rw [Nat.mod_eq_of_lt this]
    have : r ≠ 0 := by omega
    rw [if_pos this]
    omega

theorem callsUpTo_getElem? (n cs : Int) (K k : Nat) (hk : k < K) :
    (callsUpTo n cs K)[k]? = some (chunkAt n cs k, (k : Int) * cs) := by
  simp [callsUpTo, List.getElem?_range hk]

theorem callsUpTo_offsets (n cs : Int) (hcs : 1 ≤ cs) (K : Nat) :
    List.Pairwise (fun a b => a < b) ((callsUpTo n cs K).map Prod.snd) := by
  rw [callsUpTo, List.map_map, List.pairwise_map]
  refine List.Pairwise.imp ?_ (List.pairwise_lt_range K)
  intro a b hab
  simp only [Function.comp]
  have : (a : Int) < (b : Int) := by exact_mod_cast hab
  nlinarith

theorem GetFibonacciStream_accepted (fuel : Nat) (maxLen : Int) (s : fibonacciService)
    (ctx : Context) (req : FibonacciStreamRequest) (h0 : ¬ req.N < 0)
    (h1 : ¬ req.N > s.StreamNLimit) (h2 : ¬ req.ChunkSize > s.MaxChunkSize)
    (h3 : ¬ req.ChunkSize < s.MinChunkSize) :
    GetFibonacciStream fuel maxLen s ctx req
      = processChunks fuel maxLen ctx req.N req.ChunkSize req.SendFunc := by
  rw [GetFibonacciStream, if_neg h0, if_neg h1, if_neg h2, if_neg h3]
  rcases processChunks fuel maxLen ctx req.N req.ChunkSize req.SendFunc with
    ⟨(_ | e) | _ | _, calls⟩ <;> rfl

/-! ## Claims on `processChunks` and `GetFibonacciStream` -/

/-- C3, as stated, fails: for `n = 1` and `chunkSize = 2 ^ 60`, with a context that is never
done and a `send` that always succeeds, `getFibonacci` returns `["0"]`, while
`processChunks` panics in `make([]string, chunkSize)` and delivers nothing. -/
theorem C3_counterexample :
    (0 : Int) ≤ 1 ∧ (1 : Int) ≤ 1152921504606846976 ∧
      getFibonacci maxLen64 background 1 = Outcome.ret (some [lit "0"], none) ∧
      processChunks 2 maxLen64 background 1 1152921504606846976 (fun _ _ _ => none)
        = (Outcome.panicked, []) := by
  decide

/-- C3 (amended): for `n ≥ 0` and `chunkSize ≥ 1`, both no larger than the length `make`
can allocate, a cancellation signal that is never signalled and a `send` callback that
always succeeds, `processChunks` returns `nil`, and the chunks it delivered (as they were
when delivered), concatenated in order of emission, are the sequence `getFibonacci` returns
for the same `n`. -/
theorem C3_chunks_concat (maxLen : Int) (ctx : Context) (n chunkSize : Int) (send : SendFunc)
    (hn : 0 ≤ n) (hcs : 1 ≤ chunkSize) (hnmax : n ≤ maxLen) (hcmax : chunkSize ≤ maxLen)
    (hctx : ∀ k, ctx k = none) (hsend : ∀ k chunk i, send k chunk i = none) (fuel : Nat)
    (hf : numChunks n chunkSize < fuel) :
    ∃ seq, getFibonacci maxLen ctx n = Outcome.ret (some seq, none) ∧
      (processChunks fuel maxLen ctx n chunkSize send).1 = Outcome.ret none ∧
      ((processChunks fuel maxLen ctx n chunkSize send).2.map Prod.fst).flatten = seq := by
  obtain ⟨N, rfl⟩ := Int.eq_ofNat_of_zero_le hn
  obtain ⟨C, rfl⟩ := Int.eq_ofNat_of_zero_le (by omega : 0 ≤ chunkSize)
  have hC : 1 ≤ C := by omega
  have hrun := processChunks_complete maxLen ctx send N C hC hcmax (fun j _ => hctx j)
    (fun j _ => hsend _ _ _) fuel hf
  refine ⟨fibStrings N, getFibonacci_run maxLen ctx hctx N hnmax, ?_, ?_⟩
  · rw [hrun]
  · rw [hrun]
    simp only
    rw [callsUpTo_flatten, emitted_numChunks N C hC]

/-- Witness of C3 (amended): the test of the source, `n = 10` in chunks of 4. -/
theorem C3_chunks_concat_witness :
    ∃ seq, getFibonacci maxLen64 background 10 = Outcome.ret (some seq, none) ∧
      (processChunks 4 maxLen64 background 10 4 (fun _ _ _ => none)).1 = Outcome.ret none ∧
      ((processChunks 4 maxLen64 background 10 4 (fun _ _ _ => none)).2.map
        Prod.fst).flatten = seq :=
  C3_chunks_concat maxLen64 background 10 4 (fun _ _ _ => none) (by decide) (by decide)
    (by decide) (by decide) (fun _ => rfl) (fun _ _ _ => rfl) 4 (by decide)

/-- C4, as stated, fails: for `n = 1` and `chunkSize = 2 ^ 60` one delivery is due
(`ceil (n / chunkSize) = 1`), but `processChunks` panics in `make([]string, chunkSize)`
before any delivery. -/
theorem C4_counterexample :
    (0 : Int) ≤ 1 ∧ (1 : Int) ≤ 1152921504606846976 ∧ numChunks 1 1152921504606846976 = 1 ∧
      processChunks 2 maxLen64 background 1 1152921504606846976 (fun _ _ _ => none)
        = (Outcome.panicked, []) ∧
      (processChunks 2 maxLen64 background 1 1152921504606846976
        (fun _ _ _ => none)).2.length = 0 := by
  decide

/-- C4 (amended): for `n ≥ 0` and `chunkSize ≥ 1` no larger than the length `make` can
allocate, without cancellation and with a `send` callback
that always succeeds, `processChunks` invokes `send` exactly `ceil (n / chunkSize)` times,
with strictly ascending start indices; invocation `k` (from 0) gets start index
`k * chunkSize` and a chunk of length `chunkSize`, except the last one, whose length is
`n mod chunkSize` when that is not zero, else `chunkSize`.  `numChunks n chunkSize` is the
least `K` with `n ≤ K * chunkSize`.  For `n = 10`, `chunkSize = 4` the lengths are
`[4, 4, 2]` at the start indices `[0, 4, 8]`. -/
theorem C4_chunk_layout (maxLen : Int) (ctx : Context) (n chunkSize : Int) (send : SendFunc)
    (hn : 0 ≤ n) (hcs : 1 ≤ chunkSize) (hcmax : chunkSize ≤ maxLen) (hctx : ∀ k, ctx k = none)
    (hsend : ∀ k chunk i, send k chunk i = none) (fuel : Nat)
    (hf : numChunks n chunkSize < fuel) :
    (processChunks fuel maxLen ctx n chunkSize send).1 = Outcome.ret none ∧
      (processChunks fuel maxLen ctx n chunkSize send).2.length = numChunks n chunkSize ∧
      (n ≤ (numChunks n chunkSize : Int) * chunkSize ∧
        ∀ j : Nat, j < numChunks n chunkSize → (j : Int) * chunkSize < n) ∧
      List.Pairwise (fun a b => a < b)
        ((processChunks fuel maxLen ctx n chunkSize send).2.map Prod.snd) ∧
      (∀ k : Nat, k < numChunks n chunkSize → ∃ chunk,
        (processChunks fuel maxLen ctx n chunkSize send).2[k]?
          = some (chunk, (k : Int) * chunkSize) ∧
        (chunk.length : Int) =
          if k + 1 < numChunks n chunkSize then chunkSize
          else if n % chunkSize ≠ 0 then n % chunkSize else chunkSize) ∧
      (processChunks 4 maxLen64 background 10 4 (fun _ _ _ => none)).2.map
        (fun c => (c.1.length, c.2)) = [(4, 0), (4, 4), (2, 8)] := by
  obtain ⟨N, rfl⟩ := Int.eq_ofNat_of_zero_le hn
  obtain ⟨C, rfl⟩ := Int.eq_ofNat_of_zero_le (by omega : 0 ≤ chunkSize)
  have hC : 1 ≤ C := by omega
  rw [processChunks_complete maxLen ctx send N C hC hcmax (fun j _ => hctx j)
    (fun j _ => hsend _ _ _) fuel hf]
  have hK := numChunks_cast N C hC
  obtain ⟨s1, s2⟩ := numChunks_spec N C hC
  rw [← hK] at s1 s2
  refine ⟨rfl, callsUpTo_length _ _ _, ⟨?_, ?_⟩, callsUpTo_offsets _ _ (by omega) _, ?_, by decide⟩
  · exact_mod_cast s1
  · intro j hj
    exact_mod_cast s2 j hj
  · intro k hk
    refine ⟨chunkAt N C k, callsUpTo_getElem? _ _ _ _ hk, ?_⟩
    by_cases hlast : k + 1 < numChunks (N : Int) (C : Int)
    · rw [if_pos hlast, chunkAt_length_inner N C k hC hlast]
    · rw [if_neg hlast, chunkAt_length_last N C k hC (by omega)]
      have hmod : (N : Int) % (C : Int) = ((N % C : Nat) : Int) := by simp
      rw [hmod]
      by_cases h0 : N % C = 0
      · simp [h0]
      · have : ((N % C : Nat) : Int) ≠ 0 := by exact_mod_cast h0
        rw [if_pos h0, if_pos this]

/-- Witness of C4 (amended): `n = 10`, `chunkSize = 4`: three invocations. -/
theorem C4_chunk_layout_witness :
    (processChunks 4 maxLen64 background 10 4 (fun _ _ _ => none)).1 = Outcome.ret none ∧
      (processChunks 4 maxLen64 background 10 4 (fun _ _ _ => none)).2.length = numChunks 10 4 ∧
      numChunks 10 4 = 3 :=
  ⟨(C4_chunk_layout maxLen64 background 10 4 (fun _ _ _ => none) (by decide) (by decide)
      (by decide) (fun _ => rfl) (fun _ _ _ => rfl) 4 (by decide)).1,
    (C4_chunk_layout maxLen64 background 10 4 (fun _ _ _ => none) (by decide) (by decide)
      (by decide) (fun _ => rfl) (fun _ _ _ => rfl) 4 (by decide)).2.1, by decide⟩


/-- C7: `GetFibonacciStream` returns the error of the first failing check, in the order
`N < 0` (`ErrNegativeN`), `N > StreamNLimit` (`ErrTooLargeN`), `ChunkSize > MaxChunkSize`
(`ErrInvalidChunkSize`), `ChunkSize < MinChunkSize` (`ErrInvalidChunkSize`), and in each of
these rejections `send` is not invoked.  With the limits (max 10, min 2, stream limit 100),
`N = 150` and `ChunkSize = 20` give `ErrTooLargeN`, not `ErrInvalidChunkSize`. -/
theorem C7_stream_validation_order (fuel : Nat) (maxLen : Int) (s : fibonacciService)
    (ctx : Context) (req : FibonacciStreamRequest) :
    (req.N < 0 →
      GetFibonacciStream fuel maxLen s ctx req = (Outcome.ret (some GoError.ErrNegativeN), [])) ∧
    (0 ≤ req.N → req.N > s.StreamNLimit →
      (GetFibonacciStream fuel maxLen s ctx req).2 = [] ∧
      streamFailsWith (GetFibonacciStream fuel maxLen s ctx req).1 GoError.ErrTooLargeN = true ∧
      streamFailsWith (GetFibonacciStream fuel maxLen s ctx req).1 GoError.ErrNegativeN = false ∧
      streamFailsWith (GetFibonacciStream fuel maxLen s ctx req).1 GoError.ErrInvalidChunkSize
        = false) ∧
    (0 ≤ req.N → req.N ≤ s.StreamNLimit → req.ChunkSize > s.MaxChunkSize →
      (GetFibonacciStream fuel maxLen s ctx req).2 = [] ∧
      streamFailsWith (GetFibonacciStream fuel maxLen s ctx req).1 GoError.ErrInvalidChunkSize
        = true ∧
      (GetFibonacciStream fuel maxLen s ctx req).1 = Outcome.ret (some (GoError.errorf
        "%w: must not exceed %d" GoError.ErrInvalidChunkSize s.MaxChunkSize))) ∧
    (0 ≤ req.N → req.N ≤ s.StreamNLimit → req.ChunkSize ≤ s.MaxChunkSize →
        req.ChunkSize < s.MinChunkSize →
      (GetFibonacciStream fuel maxLen s ctx req).2 = [] ∧
      streamFailsWith (GetFibonacciStream fuel maxLen s ctx req).1 GoError.ErrInvalidChunkSize
        = true ∧
      (GetFibonacciStream fuel maxLen s ctx req).1 = Outcome.ret (some (GoError.errorf
        "%w: must be at least %d" GoError.ErrInvalidChunkSize s.MinChunkSize))) ∧
    (streamFailsWith (GetFibonacciStream fuel maxLen (NewService 10 2 50 100) ctx
        { N := 150, ChunkSize := 20, SendFunc := fun _ _ _ => none }).1
        GoError.ErrTooLargeN = true ∧
      streamFailsWith (GetFibonacciStream fuel maxLen (NewService 10 2 50 100) ctx
        { N := 150, ChunkSize := 20, SendFunc := fun _ _ _ => none }).1
        GoError.ErrInvalidChunkSize = false) := by
  refine ⟨fun h => ?_, fun h0 h1 => ?_, fun h0 h1 h2 => ?_, fun h0 h1 h2 h3 => ?_, ?_⟩
  · rw [GetFibonacciStream, if_pos h]
  · rw [GetFibonacciStream, if_neg (by omega), if_pos h1]
    simp [streamFailsWith, streamError, errorsIs]
  · rw [GetFibonacciStream, if_neg (by omega), if_neg (by omega), if_pos h2]
    simp [streamFailsWith, streamError, errorsIs]
  · rw [GetFibonacciStream, if_neg (by omega), if_neg (by omega), if_neg (by omega), if_pos h3]
    simp [streamFailsWith, streamError, errorsIs]
  · simp [GetFibonacciStream, NewService, streamFailsWith, streamError, errorsIs]

/-- Witness of C7: the three rejections of the test suite, limits (10, 2, 50, 100). -/
theorem C7_stream_validation_order_witness :
    (GetFibonacciStream 5 maxLen64 (NewService 10 2 50 100) background
        { N := -1, ChunkSize := 4, SendFunc := fun _ _ _ => none }
        = (Outcome.ret (some GoError.ErrNegativeN), [])) ∧
      streamFailsWith (GetFibonacciStream 5 maxLen64 (NewService 10 2 50 100) background
        { N := 150, ChunkSize := 20, SendFunc := fun _ _ _ => none }).1
        GoError.ErrTooLargeN = true ∧
      streamFailsWith (GetFibonacciStream 5 maxLen64 (NewService 10 2 50 100) background
        { N := 10, ChunkSize := 20, SendFunc := fun _ _ _ => none }).1
        GoError.ErrInvalidChunkSize = true ∧
      streamFailsWith (GetFibonacciStream 5 maxLen64 (NewService 10 2 50 100) background
        { N := 10, ChunkSize := 1, SendFunc := fun _ _ _ => none }).1
        GoError.ErrInvalidChunkSize = true :=
  ⟨(C7_stream_validation_order 5 maxLen64 (NewService 10 2 50 100) background
      { N := -1, ChunkSize := 4, SendFunc := fun _ _ _ => none }).1 (by decide),
    ((C7_stream_validation_order 5 maxLen64 (NewService 10 2 50 100) background
      { N := 150, ChunkSize := 20, SendFunc := fun _ _ _ => none }).2.1
        (by decide) (by decide)).2.1,
    ((C7_stream_validation_order 5 maxLen64 (NewService 10 2 50 100) background
      { N := 10, ChunkSize := 20, SendFunc := fun _ _ _ => none }).2.2.1
        (by decide) (by decide) (by decide)).2.1,
    ((C7_stream_validation_order 5 maxLen64 (NewService 10 2 50 100) background
      { N := 10, ChunkSize := 1, SendFunc := fun _ _ _ => none }).2.2.2.1
        (by decide) (by decide) (by decide) (by decide)).2.1⟩

/-- C8, as stated, fails: for `n = 1`, `chunkSize = 2 ^ 60` and `k = 1`, with a `send` that
answers the error `e` on every chunk, `processChunks` panics in
`make([]string, chunkSize)`: `send` is invoked zero times and `e` is not returned. -/
theorem C8_counterexample :
    (0 : Int) ≤ 1 ∧ (1 : Int) ≤ 1152921504606846976 ∧ 1 ≤ numChunks 1 1152921504606846976 ∧
      processChunks 2 maxLen64 background 1 1152921504606846976
          (fun _ _ _ => some (GoError.custom "send error"))
        = (Outcome.panicked, []) ∧
      (processChunks 2 maxLen64 background 1 1152921504606846976
          (fun _ _ _ => some (GoError.custom "send error"))).1
        ≠ Outcome.ret (some (GoError.custom "send error")) := by
  decide

/-- C8 (amended): for `n ≥ 0`, `chunkSize ≥ 1` no larger than the length `make` can
allocate, and `1 ≤ k ≤ ceil (n / chunkSize)`: if no cancellation is observed before chunk
`k`, `send` succeeds on the first `k - 1` chunks and answers the error `e` on the `k`-th,
then `processChunks` invokes `send` exactly `k` times and returns `e` itself; so does
`GetFibonacciStream` for a request that passes validation. -/
theorem C8_send_error (maxLen : Int) (ctx : Context) (n chunkSize : Int) (send : SendFunc)
    (k : Nat) (e : GoError) (hn : 0 ≤ n) (hcs : 1 ≤ chunkSize) (hcmax : chunkSize ≤ maxLen)
    (hk : 1 ≤ k) (hkn : k ≤ numChunks n chunkSize) (hctx : ∀ j, j < k → ctx j = none)
    (hok : ∀ j, j + 1 < k → send j (chunkAt n chunkSize j) ((j : Int) * chunkSize) = none)
    (herr : send (k - 1) (chunkAt n chunkSize (k - 1)) (((k - 1 : Nat) : Int) * chunkSize)
      = some e)
    (fuel : Nat) (hf : k ≤ fuel) :
    processChunks fuel maxLen ctx n chunkSize send
        = (Outcome.ret (some e), callsUpTo n chunkSize k) ∧
      (processChunks fuel maxLen ctx n chunkSize send).2.length = k ∧
      (∀ s : fibonacciService, n ≤ s.StreamNLimit → chunkSize ≤ s.MaxChunkSize →
        s.MinChunkSize ≤ chunkSize →
        GetFibonacciStream fuel maxLen s ctx { N := n, ChunkSize := chunkSize, SendFunc := send }
          = (Outcome.ret (some e), callsUpTo n chunkSize k)) := by
  obtain ⟨N, rfl⟩ := Int.eq_ofNat_of_zero_le hn
  obtain ⟨C, rfl⟩ := Int.eq_ofNat_of_zero_le (by omega : 0 ≤ chunkSize)
  have hC : 1 ≤ C := by omega
  obtain ⟨K, rfl⟩ : ∃ K, k = K + 1 := ⟨k - 1, by omega⟩
  have hrun := processChunks_sendError maxLen ctx send N C K hC hcmax (by omega)
    (fun j hj => hctx j (by omega)) (fun j hj => hok j (by omega)) e herr fuel (by omega)
  refine ⟨hrun, ?_, fun s h1 h2 h3 => ?_⟩
  · rw [hrun]; exact callsUpTo_length _ _ _
  · rw [GetFibonacciStream_accepted fuel maxLen s ctx _ (by simp) (by simpa using h1)
      (by simpa using h2) (by simpa using h3)]
    exact hrun

/-- Witness of C8 (amended): the test of the source, `send` fails at once (`k = 1`), and a callback
that fails on the second of three chunks (`k = 2`). -/
theorem C8_send_error_witness :
    processChunks 4 maxLen64 background 10 4 (fun _ _ _ => some (GoError.custom "send error"))
        = (Outcome.ret (some (GoError.custom "send error")), callsUpTo 10 4 1) ∧
      ((processChunks 4 maxLen64 background 10 4
          (fun j _ _ => if j = 1 then some (GoError.custom "send error") else none)).1
          = Outcome.ret (some (GoError.custom "send error")) ∧
        (processChunks 4 maxLen64 background 10 4
          (fun j _ _ => if j = 1 then some (GoError.custom "send error") else none)).2.length
          = 2) :=
  ⟨(C8_send_error maxLen64 background 10 4 (fun _ _ _ => some (GoError.custom "send error")) 1
      (GoError.custom "send error") (by decide) (by decide) (by decide) (by decide) (by decide)
      (fun _ _ => rfl) (fun j hj => absurd hj (by omega)) rfl 4 (by decide)).1,
    by decide⟩

/-- C9, as stated, fails: the request `N = 0`, `ChunkSize = 4` passes validation under the
limits (10, 2, 50, 100), and with an already cancelled context the call returns `nil`. -/
theorem C9_counterexample :
    (0 : Int) ≤ 0 ∧ (0 : Int) ≤ (NewService 10 2 50 100).StreamNLimit ∧
      (NewService 10 2 50 100).MinChunkSize ≤ 4 ∧
      (4 : Int) ≤ (NewService 10 2 50 100).MaxChunkSize ∧
      GetFibonacciStream 1 maxLen64 (NewService 10 2 50 100) canceledCtx
        { N := 0, ChunkSize := 4, SendFunc := fun _ _ _ => none } = (Outcome.ret none, []) := by
  decide

/-- C9 (amended): for a request that passes validation with `N ≥ 1` and a `ChunkSize`
that `make` can allocate (`0 ≤ ChunkSize`, no larger than the allocation limit), if the
context is already cancelled at the first poll, `GetFibonacciStream` fails with
`ErrContextCanceled` and `send` is invoked zero times. -/
theorem C9_stream_canceled (fuel : Nat) (maxLen : Int) (s : fibonacciService) (ctx : Context)
    (req : FibonacciStreamRequest) (hN1 : 1 ≤ req.N) (hN : req.N ≤ s.StreamNLimit)
    (hmin : s.MinChunkSize ≤ req.ChunkSize) (hmax : req.ChunkSize ≤ s.MaxChunkSize)
    (hcs : 0 ≤ req.ChunkSize) (hcmax : req.ChunkSize ≤ maxLen)
    (hctx : ctx 0 = some CtxErr.Canceled) (hf : 1 ≤ fuel) :
    GetFibonacciStream fuel maxLen s ctx req
      = (Outcome.ret (some GoError.ErrContextCanceled), []) := by
  obtain ⟨f, rfl⟩ : ∃ f, fuel = f + 1 := ⟨fuel - 1, by omega⟩
  rw [GetFibonacciStream_accepted (f + 1) maxLen s ctx req (by omega) (by omega) (by omega)
    (by omega)]
  have hm : makeSlice maxLen req.ChunkSize = some (List.replicate req.ChunkSize.toNat []) := by
    simp only [makeSlice]
    rw [if_pos ⟨hcs, hcmax⟩]
  rw [processChunks, hm]
  simp only
  rw [processChunksLoop_done ctx _ _ _ _ (by omega) f 0 CtxErr.Canceled hctx]
  simp [ctxDoneError, errorsIs, CtxErr.toError]

/-- Witness of C9 (amended): the test of the source, `N = 10`, `ChunkSize = 4`. -/
theorem C9_stream_canceled_witness :
    GetFibonacciStream 1 maxLen64 (NewService 10 2 50 100) canceledCtx
        { N := 10, ChunkSize := 4, SendFunc := fun _ _ _ => none }
      = (Outcome.ret (some GoError.ErrContextCanceled), []) :=
  C9_stream_canceled 1 maxLen64 (NewService 10 2 50 100) canceledCtx
    { N := 10, ChunkSize := 4, SendFunc := fun _ _ _ => none }
    (by decide) (by decide) (by decide) (by decide) (by decide) (by decide) rfl (by decide)

/-! ## Cancellation observed in the middle of a run -/

theorem getFibonacciLoop_ctxDone (ctx : Context) (N K : Nat) (e : CtxErr) (hK : K + 2 < N)
    (hbefore : ∀ j, j < K → ctx j = none) (hobs : ctx K = some e) :
    ∀ (fuel i : Nat) (rest : List GoString), 2 ≤ i → i ≤ K + 2 → K + 2 - i + 1 ≤ fuel →
      rest.length = N - i →
      getFibonacciLoop ctx (N : Int) fuel (i : Int) (fibStrings i ++ rest)
        = Outcome.ret (none, some (ctxDoneError e)) := by
  intro fuel
  induction fuel with
  | zero => intro i rest _ _ h; omega
  | succ fuel ih =>
    intro i rest h2 hi hf hrest
    obtain ⟨m, rfl⟩ : ∃ m, i = m + 2 := ⟨i - 2, by omega⟩
    have hlt : ((m + 2 : Nat) : Int) < (N : Int) := by omega
    have e2 : ((m + 2 : Nat) : Int) - 2 = ((m : Nat) : Int) := by omega
    rw [getFibonacciLoop, if_pos hlt, e2, Int.toNat_ofNat]
    by_cases hm : m = K
    · subst hm
      rw [hobs]
    · rw [hbefore m (by omega)]
      simp only
      have e1 : ((m + 2 : Nat) : Int) - 1 = ((m + 1 : Nat) : Int) := by omega
      have l1 : m + 1 < (fibStrings (m + 2)).length := by rw [fibStrings_length]; omega
      have l0 : m < (fibStrings (m + 2)).length := by rw [fibStrings_length]; omega
      rw [e1, sliceGet_append_left _ _ _ l1, sliceGet_append_left _ _ _ l0,
        fibStrings_getElem? _ _ (by omega), fibStrings_getElem? _ _ (by omega)]
      simp only
      obtain ⟨r, rest1, rfl⟩ : ∃ r rest1, rest = r :: rest1 := by
        rcases rest with _ | ⟨r, rest1⟩
        · simp at hrest; omega
        · exact ⟨r, rest1, rfl⟩
      have e3 : ((m + 2 : Nat) : Int) = ((fibStrings (m + 2)).length : Int) := by
        rw [fibStrings_length]
      rw [e3, sliceSet_append_cons, addStrings_decimal]
      simp only
      have e4 : ((fibStrings (m + 2)).length : Int) + 1 = ((m + 2 + 1 : Nat) : Int) := by
        rw [fibStrings_length]; simp
      have e5 : Nat.fib (m + 1) + Nat.fib m = Nat.fib (m + 2) := by
        rw [Nat.fib_add_two]; omega
      have e6 : fibStrings (m + 2) ++ decimal (Nat.fib (m + 2)) :: rest1
          = fibStrings (m + 2 + 1) ++ rest1 := by
        rw [fibStrings_succ (m + 2)]; simp
      rw [e4, e5, e6]
      apply ih
      · omega
      · omega
      · omega
      · simp at hrest; omega

theorem getFibonacci_ctxDone (maxLen : Int) (ctx : Context) (N K : Nat) (e : CtxErr)
    (hK : K + 2 < N) (hmax : (N : Int) ≤ maxLen)
    (hbefore : ∀ j, j < K → ctx j = none) (hobs : ctx K = some e) :
    getFibonacci maxLen ctx (N : Int) = Outcome.ret (none, some (ctxDoneError e)) := by
  have h0 : lit "0" = decimal (Nat.fib 0) := by simp [decimal]; decide
  have h1 : lit "1" = decimal (Nat.fib 1) := by simp [decimal]; decide
  obtain ⟨M, rfl⟩ : ∃ M, N = M + 2 := ⟨N - 2, by omega⟩
  have hm : makeSlice maxLen ((M + 2 : Nat) : Int) = some (List.replicate (M + 2) []) :=
    makeSlice_cast maxLen (M + 2) hmax
  have hs : fibStrings 2 = [decimal (Nat.fib 0), decimal (Nat.fib 1)] := by
    simp [fibStrings, List.range_succ]
  have := getFibonacciLoop_ctxDone ctx (M + 2) K e hK hbefore hobs (M + 2 + 1) 2
    (List.replicate M []) le_rfl (by omega) (by omega) (by simp)
  rw [getFibonacci, hm]
  simp only
  rw [if_pos (by omega), if_pos (by omega)]
  simp only [List.replicate_succ, List.set_cons_zero, List.set_cons_succ, h0, h1,
    Int.toNat_ofNat]
  rw [hs] at this
  simpa using this

theorem ctxDoneError_canceled : ctxDoneError CtxErr.Canceled = GoError.ErrContextCanceled := by
  simp [ctxDoneError, errorsIs, CtxErr.toError]

theorem ctxDoneError_other (e : CtxErr) (h : e ≠ CtxErr.Canceled) :
    ctxDoneError e = e.toError ∧ errorsIs e.toError GoError.ErrContextCanceled = false := by
  cases e
  · exact absurd rfl h
  · simp [ctxDoneError, errorsIs, CtxErr.toError]

/-! ## Claims on cancellation -/

/-- C11, as stated, fails: for `n = 1`, `chunkSize = 2 ^ 60` and `k = 0`
(`k < ceil (n / chunkSize) = 1`), with an oracle that answers cancelled at the poll before
chunk 0, `processChunks` panics in `make([]string, chunkSize)` before any poll and does not
return `ErrContextCanceled`. -/
theorem C11_counterexample :
    (0 : Int) ≤ 1 ∧ (1 : Int) ≤ 1152921504606846976 ∧ 0 < numChunks 1 1152921504606846976 ∧
      canceledCtx 0 = some CtxErr.Canceled ∧
      processChunks 2 maxLen64 canceledCtx 1 1152921504606846976 (fun _ _ _ => none)
        = (Outcome.panicked, []) ∧
      (processChunks 2 maxLen64 canceledCtx 1 1152921504606846976 (fun _ _ _ => none)).1
        ≠ Outcome.ret (some GoError.ErrContextCanceled) := by
  decide

/-- C11 (amended): with cancellation as an oracle polled once before each chunk, for
`n ≥ 0`, `chunkSize ≥ 1` no larger than the length `make` can allocate, and
`k < ceil (n / chunkSize)`: if the polls before the chunks `0..k-1`
find the context not done, the poll before chunk `k` finds it cancelled, and `send`
succeeded on the chunks `0..k-1`, then `processChunks` has invoked `send` exactly `k`
times, each time with a chunk of `chunkSize` elements at start index `j * chunkSize`,
delivers nothing more, and returns `ErrContextCanceled`, not `nil`. -/
theorem C11_cancel_mid_stream (maxLen : Int) (ctx : Context) (n chunkSize : Int)
    (send : SendFunc) (k : Nat) (hn : 0 ≤ n) (hcs : 1 ≤ chunkSize)
    (hcmax : chunkSize ≤ maxLen) (hk : k < numChunks n chunkSize)
    (hbefore : ∀ j, j < k → ctx j = none) (hobs : ctx k = some CtxErr.Canceled)
    (hsend : ∀ j, j < k → send j (chunkAt n chunkSize j) ((j : Int) * chunkSize) = none)
    (fuel : Nat) (hf : k < fuel) :
    processChunks fuel maxLen ctx n chunkSize send
        = (Outcome.ret (some GoError.ErrContextCanceled), callsUpTo n chunkSize k) ∧
      (processChunks fuel maxLen ctx n chunkSize send).2.length = k ∧
      (∀ j : Nat, j < k → ∃ chunk,
        (processChunks fuel maxLen ctx n chunkSize send).2[j]?
          = some (chunk, (j : Int) * chunkSize) ∧
        (chunk.length : Int) = chunkSize) ∧
      (processChunks fuel maxLen ctx n chunkSize send).1 ≠ Outcome.ret none := by
  obtain ⟨N, rfl⟩ := Int.eq_ofNat_of_zero_le hn
  obtain ⟨C, rfl⟩ := Int.eq_ofNat_of_zero_le (by omega : 0 ≤ chunkSize)
  have hC : 1 ≤ C := by omega
  have hrun := processChunks_ctxDone maxLen ctx send N C k hC hcmax hk hbefore hsend
    CtxErr.Canceled hobs fuel hf
  rw [ctxDoneError_canceled] at hrun
  rw [hrun]
  refine ⟨rfl, callsUpTo_length _ _ _, fun j hj => ?_, by simp⟩
  refine ⟨chunkAt N C j, callsUpTo_getElem? _ _ _ _ hj, ?_⟩
  rw [chunkAt_length_inner N C j hC (by omega)]

/-- Witness of C11 (amended): `n = 10`, `chunkSize = 4`, cancellation seen at the poll before the
third chunk: two complete chunks were delivered. -/
theorem C11_cancel_mid_stream_witness :
    (processChunks 4 maxLen64 (fun p => if p = 2 then some CtxErr.Canceled else none) 10 4
        (fun _ _ _ => none)).1 = Outcome.ret (some GoError.ErrContextCanceled) ∧
      (processChunks 4 maxLen64 (fun p => if p = 2 then some CtxErr.Canceled else none) 10 4
        (fun _ _ _ => none)).2
        = [([lit "0", lit "1", lit "1", lit "2"], 0),
           ([lit "3", lit "5", lit "8", lit "13"], 4)] :=
  ⟨congrArg Prod.fst (C11_cancel_mid_stream maxLen64
      (fun p => if p = 2 then some CtxErr.Canceled else none)
      10 4 (fun _ _ _ => none) 2 (by decide) (by decide) (by decide) (by decide)
      (fun j hj => if_neg (by omega)) rfl (fun _ _ => rfl) 4 (by decide)).1,
    by decide⟩


/-- C15, as stated, fails: with a context whose deadline has expired before the call,
`getFibonacci` for `n = 2 ^ 60` (`n ≥ 3`) and `processChunks` for `n = 1`,
`chunkSize = 2 ^ 60` panic in `make` before the first poll and do not return the
context's error. -/
theorem C15_counterexample :
    (3 : Int) ≤ 1152921504606846976 ∧
      getFibonacci maxLen64 (fun _ => some CtxErr.DeadlineExceeded) 1152921504606846976
        = Outcome.panicked ∧
      processChunks 2 maxLen64 (fun _ => some CtxErr.DeadlineExceeded) 1 1152921504606846976
          (fun _ _ _ => none)
        = (Outcome.panicked, []) := by
  decide

/-- C15 (amended): when the context is observed as done with a cause `e` other than
`context.Canceled` (a deadline that expired), `getFibonacci` (for `n ≥ 3` no larger than
the length `make` can allocate) and `processChunks` (for `n ≥ 1` and a `chunkSize` that
`make` can allocate) return the context's own error unchanged, and that error does not
match `ErrContextCanceled`; only `context.Canceled` is translated to
`ErrContextCanceled`. -/
theorem C15_other_cause (maxLen : Int) (e : CtxErr) (he : e ≠ CtxErr.Canceled) :
    (ctxDoneError e = e.toError ∧ errorsIs e.toError GoError.ErrContextCanceled = false ∧
      ctxDoneError CtxErr.Canceled = GoError.ErrContextCanceled) ∧
    (∀ (ctx : Context) (n : Int) (K : Nat), (K : Int) + 2 < n → n ≤ maxLen →
      (∀ j, j < K → ctx j = none) → ctx K = some e →
      getFibonacci maxLen ctx n = Outcome.ret (none, some e.toError)) ∧
    (∀ (ctx : Context) (n chunkSize : Int) (send : SendFunc) (fuel : Nat),
      1 ≤ n → 0 ≤ chunkSize → chunkSize ≤ maxLen → ctx 0 = some e → 1 ≤ fuel →
      processChunks fuel maxLen ctx n chunkSize send = (Outcome.ret (some e.toError), [])) ∧
    (∀ (ctx : Context) (n chunkSize : Int) (send : SendFunc) (K fuel : Nat),
      0 ≤ n → 1 ≤ chunkSize → chunkSize ≤ maxLen → K < numChunks n chunkSize →
      (∀ j, j < K → ctx j = none) →
      (∀ j, j < K → send j (chunkAt n chunkSize j) ((j : Int) * chunkSize) = none) →
      ctx K = some e → K < fuel →
      processChunks fuel maxLen ctx n chunkSize send
        = (Outcome.ret (some e.toError), callsUpTo n chunkSize K)) := by
  obtain ⟨h1, h2⟩ := ctxDoneError_other e he
  refine ⟨⟨h1, h2, ctxDoneError_canceled⟩, ?_, ?_, ?_⟩
  · intro ctx n K hK hmax hbefore hobs
    obtain ⟨N, rfl⟩ := Int.eq_ofNat_of_zero_le (by omega : 0 ≤ n)
    rw [getFibonacci_ctxDone maxLen ctx N K e (by omega) hmax hbefore hobs, h1]
  · intro ctx n chunkSize send fuel hn hcs hcmax hobs hf
    obtain ⟨f, rfl⟩ : ∃ f, fuel = f + 1 := ⟨fuel - 1, by omega⟩
    have hm : makeSlice maxLen chunkSize = some (List.replicate chunkSize.toNat []) := by
      simp only [makeSlice]
      rw [if_pos ⟨hcs, hcmax⟩]
    rw [processChunks, hm]
    simp only
    rw [processChunksLoop_done ctx _ _ _ _ (by omega) f 0 e hobs, h1]
  · intro ctx n chunkSize send K fuel hn hcs hcmax hK hbefore hsend hobs hf
    obtain ⟨N, rfl⟩ := Int.eq_ofNat_of_zero_le hn
    obtain ⟨C, rfl⟩ := Int.eq_ofNat_of_zero_le (by omega : 0 ≤ chunkSize)
    rw [processChunks_ctxDone maxLen ctx send N C K (by omega) hcmax hK hbefore hsend e hobs
      fuel hf, h1]

/-- Witness of C15 (amended): a context whose deadline has expired before the call,
`n = 10`. -/
theorem C15_other_cause_witness :
    getFibonacci maxLen64 (fun _ => some CtxErr.DeadlineExceeded) 10
        = Outcome.ret (none, some GoError.contextDeadlineExceeded) ∧
      processChunks 1 maxLen64 (fun _ => some CtxErr.DeadlineExceeded) 10 4 (fun _ _ _ => none)
        = (Outcome.ret (some GoError.contextDeadlineExceeded), []) ∧
      errorsIs GoError.contextDeadlineExceeded GoError.ErrContextCanceled = false :=
  ⟨(C15_other_cause maxLen64 CtxErr.DeadlineExceeded (by decide)).2.1
      (fun _ => some CtxErr.DeadlineExceeded) 10 0 (by decide) (by decide)
      (fun j hj => absurd hj (by omega)) rfl,
    (C15_other_cause maxLen64 CtxErr.DeadlineExceeded (by decide)).2.2.1
      (fun _ => some CtxErr.DeadlineExceeded) 10 4 (fun _ _ _ => none) 1 (by decide) (by decide)
      (by decide) rfl (by decide),
    (C15_other_cause maxLen64 CtxErr.DeadlineExceeded (by decide)).1.2.1⟩

/-! ## Claims on error messages and on the server handlers -/

theorem GetFibonacciStream_tooLarge (fuel : Nat) (maxLen : Int) (s : fibonacciService)
    (ctx : Context) (req : FibonacciStreamRequest) (h0 : 0 ≤ req.N)
    (h1 : req.N > s.StreamNLimit) :
    GetFibonacciStream fuel maxLen s ctx req
      = (Outcome.ret (some (GoError.errorf "%w: must not exceed %d" GoError.ErrTooLargeN
          s.NLimit)), []) := by
  rw [GetFibonacciStream, if_neg (by omega), if_pos h1]

/-- C12, evaluated on the code: under the limits (max 10, min 2, `NLimit` 50,
`StreamNLimit` 100) `GetFibonacci 51` reports the bound it checked, `50`; the stream
request `N = 150`, checked against `StreamNLimit = 100`, is rejected with an error that
matches `ErrTooLargeN` and whose message reports `50`, the value of `NLimit`, not `100`. -/
theorem C12_stream_error_reports_NLimit :
    (seqError (GetFibonacci maxLen64 (NewService 10 2 50 100) background 51).1).map
        GoError.Error = some "to large n: must not exceed 50" ∧
      (150 : Int) > (NewService 10 2 50 100).StreamNLimit ∧
      (NewService 10 2 50 100).StreamNLimit = 100 ∧
      streamFailsWith (GetFibonacciStream 1 maxLen64 (NewService 10 2 50 100) background
        { N := 150, ChunkSize := 4, SendFunc := fun _ _ _ => none }).1 GoError.ErrTooLargeN
        = true ∧
      (streamError (GetFibonacciStream 1 maxLen64 (NewService 10 2 50 100) background
        { N := 150, ChunkSize := 4, SendFunc := fun _ _ _ => none }).1).map GoError.Error
        = some "to large n: must not exceed 50" := by
  decide

/-! ## The server handlers -/

theorem errorsIs_errorf_ErrInvalidChunkSize (f : String) (w : GoError) (a : Int) :
    errorsIs (GoError.errorf f w a) GoError.ErrInvalidChunkSize
      = errorsIs w GoError.ErrInvalidChunkSize := by
  simp [errorsIs]

theorem errorsIs_errorf_ErrNegativeN (f : String) (w : GoError) (a : Int) :
    errorsIs (GoError.errorf f w a) GoError.ErrNegativeN = errorsIs w GoError.ErrNegativeN := by
  simp [errorsIs]

theorem errorsIs_errorf_ErrTooLargeN (f : String) (w : GoError) (a : Int) :
    errorsIs (GoError.errorf f w a) GoError.ErrTooLargeN = errorsIs w GoError.ErrTooLargeN := by
  simp [errorsIs]

theorem errorsIs_errorf_ErrContextCanceled (f : String) (w : GoError) (a : Int) :
    errorsIs (GoError.errorf f w a) GoError.ErrContextCanceled
      = errorsIs w GoError.ErrContextCanceled := by
  simp [errorsIs]

theorem statusErrorf_badRequest (err : GoError) :
    statusErrorf StatusBadRequest "Bad Request: %s" err
      = { code := 400, message := "Bad Request: " ++ err.Error } := by
  simp only [statusErrorf, StatusBadRequest, Status.mk.injEq, true_and]
  apply String.ext
  simp [sprintf]

theorem statusErrorf_unavailable (err : GoError) :
    statusErrorf StatusServiceUnavailable "Service unavailable: %s" err
      = { code := 503, message := "Service unavailable: " ++ err.Error } := by
  simp only [statusErrorf, StatusServiceUnavailable, Status.mk.injEq, true_and]
  apply String.ext
  simp [sprintf]

theorem statusErrorf_canceled (err : GoError) :
    statusErrorf StatusBadRequest "Context canceled: %s" err
      = { code := 400, message := "Context canceled: " ++ err.Error } := by
  simp only [statusErrorf, StatusBadRequest, Status.mk.injEq, true_and]
  apply String.ext
  simp [sprintf]

theorem statusErrorf_internal (err : GoError) :
    statusErrorf StatusInternalServerError "Internal server error: %s" err
      = { code := 500, message := "Internal server error: " ++ err.Error } := by
  simp only [statusErrorf, StatusInternalServerError, Status.mk.injEq, true_and]
  apply String.ext
  simp [sprintf]

theorem FibonacciStream_some (s : FibonacciServer) (ctx : Context) (N ChunkSize : Int)
    (stream : SendFunc) (err : GoError)
    (h : s.service.GetFibonacciStream ctx
      ({ N := N, ChunkSize := ChunkSize,
         SendFunc := fun k values i => stream k values (toInt32 i) } : FibonacciStreamRequest)
      = some err) :
    s.FibonacciStream ctx N ChunkSize stream =
      if matchesValidation err then
        some (statusErrorf StatusBadRequest "Bad Request: %s" err)
      else if errorsIs err GoError.ErrContextCanceled && s.globalCtx.isSome then
        some (statusErrorf StatusServiceUnavailable "Service unavailable: %s" err)
      else if errorsIs err GoError.ErrContextCanceled then
        some (statusErrorf StatusBadRequest "Context canceled: %s" err)
      else some (statusErrorf StatusInternalServerError "Internal server error: %s" err) := by
  simp only [FibonacciServer.FibonacciStream, h, matchesValidation]

theorem Fibonacci_some (s : FibonacciServer) (ctx : Context) (N : Int)
    (res : Option (List GoString)) (err : GoError)
    (h : s.service.GetFibonacci ctx N = (res, some err)) :
    s.Fibonacci ctx N =
      if matchesValidation err then
        (none, some (statusErrorf StatusBadRequest "Bad Request: %s" err))
      else if errorsIs err GoError.ErrContextCanceled && s.globalCtx.isSome then
        (none, some (statusErrorf StatusServiceUnavailable "Service unavailable: %s" err))
      else if errorsIs err GoError.ErrContextCanceled then
        (none, some (statusErrorf StatusBadRequest "Context canceled: %s" err))
      else (none, some (statusErrorf StatusInternalServerError "Internal server error: %s" err)) := by
  simp only [FibonacciServer.Fibonacci, h, matchesValidation]

theorem isSome_of_ne_none (g : Option CtxErr) (h : g ≠ none) : g.isSome = true := by
  cases g with
  | none => exact absurd rfl h
  | some c => rfl

/-- C13, as stated, fails: a service error that joins `ErrTooLargeN` and
`ErrContextCanceled` matches `ErrContextCanceled`, and the process context is done, yet
both handlers answer code 400 with `"Bad Request: <err>"`, not code 503: the validation
case is tested first. -/
theorem C13_counterexample :
    errorsIs (GoError.joined GoError.ErrTooLargeN GoError.ErrContextCanceled)
        GoError.ErrContextCanceled = true ∧
      FibonacciServer.FibonacciStream
          { service :=
              { GetFibonacci := fun _ _ =>
                  (none, some (GoError.joined GoError.ErrTooLargeN GoError.ErrContextCanceled)),
                GetFibonacciStream := fun _ _ =>
                  some (GoError.joined GoError.ErrTooLargeN GoError.ErrContextCanceled) },
            globalCtx := some CtxErr.Canceled } background 10 4 (fun _ _ _ => none)
        = some { code := 400,
                 message := "Bad Request: " ++
                   (GoError.joined GoError.ErrTooLargeN GoError.ErrContextCanceled).Error } ∧
      (FibonacciServer.Fibonacci
          { service :=
              { GetFibonacci := fun _ _ =>
                  (none, some (GoError.joined GoError.ErrTooLargeN GoError.ErrContextCanceled)),
                GetFibonacciStream := fun _ _ =>
                  some (GoError.joined GoError.ErrTooLargeN GoError.ErrContextCanceled) },
            globalCtx := some CtxErr.Canceled } background 10).2
        = some { code := 400,
                 message := "Bad Request: " ++
                   (GoError.joined GoError.ErrTooLargeN GoError.ErrContextCanceled).Error } := by
  decide

/-- C13 (amended): for every error `err` the service returns, each of the handlers
`Fibonacci` and `FibonacciStream` builds the status of the first case that applies, in this
order: code 400 with message `"Bad Request: <err>"` when `err` matches
`ErrInvalidChunkSize`, `ErrNegativeN` or `ErrTooLargeN`; otherwise code 503 with
`"Service unavailable: <err>"` when `err` matches `ErrContextCanceled` and the process
context is done; otherwise code 400 with `"Context canceled: <err>"` when `err` matches
`ErrContextCanceled` (the process context is not done); otherwise code 500 with
`"Internal server error: <err>"`.  Both handlers build the same status for the same error,
the unary handler returns no response with it, and a `nil` service error gives a `nil`
handler error. -/
theorem C13_handlers_status (s : FibonacciServer) (ctx : Context) (N ChunkSize : Int)
    (stream : SendFunc) :
    (∀ err : GoError,
      s.service.GetFibonacciStream ctx
        ({ N := N, ChunkSize := ChunkSize,
           SendFunc := fun k values i => stream k values (toInt32 i) } : FibonacciStreamRequest)
        = some err →
      (matchesValidation err = true →
        s.FibonacciStream ctx N ChunkSize stream
          = some { code := 400, message := "Bad Request: " ++ err.Error }) ∧
      (matchesValidation err = false → errorsIs err GoError.ErrContextCanceled = true →
        s.globalCtx ≠ none →
        s.FibonacciStream ctx N ChunkSize stream
          = some { code := 503, message := "Service unavailable: " ++ err.Error }) ∧
      (matchesValidation err = false → errorsIs err GoError.ErrContextCanceled = true →
        s.globalCtx = none →
        s.FibonacciStream ctx N ChunkSize stream
          = some { code := 400, message := "Context canceled: " ++ err.Error }) ∧
      (matchesValidation err = false → errorsIs err GoError.ErrContextCanceled = false →
        s.FibonacciStream ctx N ChunkSize stream
          = some { code := 500, message := "Internal server error: " ++ err.Error })) ∧
    (∀ (res : Option (List GoString)) (err : GoError),
      s.service.GetFibonacci ctx N = (res, some err) →
      (matchesValidation err = true →
        s.Fibonacci ctx N
          = (none, some { code := 400, message := "Bad Request: " ++ err.Error })) ∧
      (matchesValidation err = false → errorsIs err GoError.ErrContextCanceled = true →
        s.globalCtx ≠ none →
        s.Fibonacci ctx N
          = (none, some { code := 503, message := "Service unavailable: " ++ err.Error })) ∧
      (matchesValidation err = false → errorsIs err GoError.ErrContextCanceled = true →
        s.globalCtx = none →
        s.Fibonacci ctx N
          = (none, some { code := 400, message := "Context canceled: " ++ err.Error })) ∧
      (matchesValidation err = false → errorsIs err GoError.ErrContextCanceled = false →
        s.Fibonacci ctx N
          = (none, some { code := 500, message := "Internal server error: " ++ err.Error }))) ∧
    (∀ (res : Option (List GoString)) (err : GoError),
      s.service.GetFibonacciStream ctx
        ({ N := N, ChunkSize := ChunkSize,
           SendFunc := fun k values i => stream k values (toInt32 i) } : FibonacciStreamRequest)
        = some err →
      s.service.GetFibonacci ctx N = (res, some err) →
      s.FibonacciStream ctx N ChunkSize stream = (s.Fibonacci ctx N).2) ∧
    (s.service.GetFibonacciStream ctx
        ({ N := N, ChunkSize := ChunkSize,
           SendFunc := fun k values i => stream k values (toInt32 i) } : FibonacciStreamRequest)
        = none →
      s.FibonacciStream ctx N ChunkSize stream = none) ∧
    (∀ res : Option (List GoString), s.service.GetFibonacci ctx N = (res, none) →
      s.Fibonacci ctx N = (some { Values := res }, none)) := by
  refine ⟨fun err h => ?_, fun res err h => ?_, fun res err h1 h2 => ?_, fun h => ?_,
    fun res h => ?_⟩
  · have hs := FibonacciStream_some s ctx N ChunkSize stream err h
    refine ⟨fun hv => ?_, fun hv hc hg => ?_, fun hv hc hg => ?_, fun hv hc => ?_⟩
    · rw [hs, if_pos hv, statusErrorf_badRequest]
    · rw [hs, if_neg (by simp [hv]), if_pos (by simp [hc, isSome_of_ne_none _ hg]),
        statusErrorf_unavailable]
    · rw [hs, if_neg (by simp [hv]), if_neg (by simp [hg]), if_pos hc, statusErrorf_canceled]
    · rw [hs, if_neg (by simp [hv]), if_neg (by simp [hc]), if_neg (by simp [hc]),
        statusErrorf_internal]
  · have hs := Fibonacci_some s ctx N res err h
    refine ⟨fun hv => ?_, fun hv hc hg => ?_, fun hv hc hg => ?_, fun hv hc => ?_⟩
    · rw [hs, if_pos hv, statusErrorf_badRequest]
    · rw [hs, if_neg (by simp [hv]), if_pos (by simp [hc, isSome_of_ne_none _ hg]),
        statusErrorf_unavailable]
    · rw [hs, if_neg (by simp [hv]), if_neg (by simp [hg]), if_pos hc, statusErrorf_canceled]
    · rw [hs, if_neg (by simp [hv]), if_neg (by simp [hc]), if_neg (by simp [hc]),
        statusErrorf_internal]
  · rw [FibonacciStream_some s ctx N ChunkSize stream err h1, Fibonacci_some s ctx N res err h2]
    split_ifs <;> rfl
  · simp only [FibonacciServer.FibonacciStream, h]
  · simp only [FibonacciServer.Fibonacci, h]

/-- Witness of C13 (amended): the mocked services of the server tests: `ErrNegativeN` with
the process context not done, and `ErrContextCanceled` with the process context done. -/
theorem C13_handlers_status_witness :
    FibonacciServer.FibonacciStream
        { service := { GetFibonacci := fun _ _ => (none, some GoError.ErrNegativeN),
                       GetFibonacciStream := fun _ _ => some GoError.ErrNegativeN },
          globalCtx := none } background (-5) 4 (fun _ _ _ => none)
      = some { code := 400, message := "Bad Request: " ++ GoError.ErrNegativeN.Error } ∧
    FibonacciServer.Fibonacci
        { service := { GetFibonacci := fun _ _ => (none, some GoError.ErrContextCanceled),
                       GetFibonacciStream := fun _ _ => some GoError.ErrContextCanceled },
          globalCtx := some CtxErr.Canceled } background 10
      = (none, some { code := 503,
                      message := "Service unavailable: " ++ GoError.ErrContextCanceled.Error }) ∧
    "Bad Request: " ++ GoError.ErrNegativeN.Error = "Bad Request: n must be positive" :=
  ⟨((C13_handlers_status
      { service := { GetFibonacci := fun _ _ => (none, some GoError.ErrNegativeN),
                     GetFibonacciStream := fun _ _ => some GoError.ErrNegativeN },
        globalCtx := none } background (-5) 4 (fun _ _ _ => none)).1
      GoError.ErrNegativeN rfl).1 (by decide),
    ((C13_handlers_status
      { service := { GetFibonacci := fun _ _ => (none, some GoError.ErrContextCanceled),
                     GetFibonacciStream := fun _ _ => some GoError.ErrContextCanceled },
        globalCtx := some CtxErr.Canceled } background 10 4 (fun _ _ _ => none)).2.1
      none GoError.ErrContextCanceled rfl).2.1 (by decide) (by decide) (by decide),
    by decide⟩

/-! ## Termination of the chunk loop -/

theorem processChunksLoop_returns (ctx : Context) (send : SendFunc) (N C : Nat) (hC : 1 ≤ C) :
    ∀ (d K : Nat), K + d = numChunks N C →
      ∃ (r : Option GoError) (K1 : Nat), K1 ≤ numChunks N C ∧
        ∀ (fuel : Nat) (chunk : List GoString), d < fuel → chunk.length = C →
          processChunksLoop ctx (N : Int) (C : Int) send fuel ((K : Int) * (C : Int)) K
              (decimal (Nat.fib (emitted N C K))) (decimal (Nat.fib (emitted N C K + 1)))
              chunk (callsUpTo N C K)
            = (Outcome.ret r, callsUpTo N C K1) := by
  have hKc := numChunks_cast N C hC
  obtain ⟨hN, hlt⟩ := numChunks_spec N C hC
  rw [← hKc] at hN hlt
  intro d
  induction d with
  | zero =>
    intro K hK
    refine ⟨none, K, by omega, fun fuel chunk hf _ => ?_⟩
    obtain ⟨f, rfl⟩ : ∃ f, fuel = f + 1 := ⟨fuel - 1, by omega⟩
    rw [processChunksLoop_exit]
    have hKe : numChunks (N : Int) (C : Int) = K := by omega
    rw [hKe] at hN
    have : ((K * C : Nat) : Int) = (K : Int) * (C : Int) := by push_cast; rfl
    omega
  | succ d ih =>
    intro K hK
    have hKlt : K * C < N := hlt K (by omega)
    have hi : (K : Int) * (C : Int) < (N : Int) := by
      have : ((K * C : Nat) : Int) = (K : Int) * (C : Int) := by push_cast; rfl
      omega
    rcases hctx : ctx K with _ | e
    · rcases hs : send K (chunkAt N C K) ((K : Int) * (C : Int)) with _ | err
      · obtain ⟨r, K1, hK1, hrun⟩ := ih (K + 1) (by omega)
        refine ⟨r, K1, hK1, fun fuel chunk hf hlen => ?_⟩
        obtain ⟨f, rfl⟩ : ∃ f, fuel = f + 1 := ⟨fuel - 1, by omega⟩
        obtain ⟨chunk1, hlen1, hstep⟩ := processChunksLoop_step ctx send N C K hKlt hctx f chunk
          (callsUpTo N C K) hlen
        rw [hstep, callsUpTo_length, hs]
        simp only
        rw [← callsUpTo_succ]
        exact hrun f chunk1 (by omega) hlen1
      · refine ⟨some err, K + 1, by omega, fun fuel chunk hf hlen => ?_⟩
        obtain ⟨f, rfl⟩ : ∃ f, fuel = f + 1 := ⟨fuel - 1, by omega⟩
        obtain ⟨chunk1, -, hstep⟩ := processChunksLoop_step ctx send N C K hKlt hctx f chunk
          (callsUpTo N C K) hlen
        rw [hstep, callsUpTo_length, hs]
        simp only
        rw [← callsUpTo_succ]
    · refine ⟨some (ctxDoneError e), K, by omega, fun fuel chunk hf hlen => ?_⟩
      obtain ⟨f, rfl⟩ : ∃ f, fuel = f + 1 := ⟨fuel - 1, by omega⟩
      rw [processChunksLoop_done ctx send _ _ _ hi f K e hctx]

theorem processChunks_returns (maxLen : Int) (ctx : Context) (send : SendFunc) (N C : Nat)
    (hC : 1 ≤ C) (hmax : (C : Int) ≤ maxLen) :
    ∃ (r : Option GoError) (K : Nat), K ≤ numChunks N C ∧
      ∀ fuel : Nat, numChunks N C < fuel →
        processChunks fuel maxLen ctx N C send = (Outcome.ret r, callsUpTo N C K) := by
  obtain ⟨r, K, hK, hrun⟩ := processChunksLoop_returns ctx send N C hC (numChunks N C) 0
    (by omega)
  refine ⟨r, K, hK, fun fuel hf => ?_⟩
  have h0 : lit "0" = decimal (Nat.fib 0) := by simp [decimal]; decide
  have h1 : lit "1" = decimal (Nat.fib 1) := by simp [decimal]; decide
  have he : emitted (N : Int) (C : Int) 0 = 0 := by rw [emitted_cast]; simp
  have := hrun fuel (List.replicate C []) hf (by simp)
  rw [he, ← h0, ← h1] at this
  rw [processChunks, makeSlice_cast maxLen C hmax]
  simp only
  simpa [callsUpTo] using this

theorem chunkAt_length_bounds (N C k : Nat) (hC : 1 ≤ C) (hk : k < numChunks (N : Int) (C : Int)) :
    1 ≤ (chunkAt (N : Int) (C : Int) k).length ∧ (chunkAt (N : Int) (C : Int) k).length ≤ C := by
  rw [numChunks_cast N C hC] at hk
  have h1 := (numChunks_spec N C hC).2 k hk
  have h2 : (k + 1) * C = k * C + C := by ring
  rw [chunkAt_length]
  omega

/-! ## Claim on the working buffer and termination -/

/-- C14, as stated, fails: under the limits (max `2 ^ 63 - 1`, min 1, 50, 100), which have
`MinChunkSize ≥ 1`, the request `N = 10`, `ChunkSize = 2 ^ 60` passes validation, the
allocation `make([]string, chunkSize)` is not valid, and `GetFibonacciStream` panics. -/
theorem C14_counterexample :
    1 ≤ (NewService 9223372036854775807 1 50 100).MinChunkSize ∧
      (0 : Int) ≤ 10 ∧ (10 : Int) ≤ (NewService 9223372036854775807 1 50 100).StreamNLimit ∧
      (1152921504606846976 : Int) ≤ (NewService 9223372036854775807 1 50 100).MaxChunkSize ∧
      (NewService 9223372036854775807 1 50 100).MinChunkSize ≤ 1152921504606846976 ∧
      makeSlice maxLen64 1152921504606846976 = none ∧
      GetFibonacciStream 4 maxLen64 (NewService 9223372036854775807 1 50 100) background
          { N := 10, ChunkSize := 1152921504606846976, SendFunc := fun _ _ _ => none }
        = (Outcome.panicked, []) := by
  decide

/-- C14 (amended): under a limit configuration with `MinChunkSize ≥ 1` and a
`MaxChunkSize` no larger than the length `make` can allocate, a stream request that
passes the validation of `GetFibonacciStream` reaches `processChunks` with
`chunkSize ≥ 1`; the allocation of the buffer succeeds, and for every context and every
`send` callback the call returns (it neither panics on a write `chunk[j]` or a slice
`chunk[:currentChunkSize]` nor runs for ever) once the fuel exceeds
`ceil (n / chunkSize)`; the chunks passed to `send` have between 1 and `chunkSize`
elements and strictly increasing start indices. -/
theorem C14_stream_terminates (maxLen : Int) (s : fibonacciService) (ctx : Context)
    (req : FibonacciStreamRequest) (hmin : 1 ≤ s.MinChunkSize) (hlim : s.MaxChunkSize ≤ maxLen)
    (h0 : 0 ≤ req.N) (hN : req.N ≤ s.StreamNLimit) (hmax : req.ChunkSize ≤ s.MaxChunkSize)
    (hcs : s.MinChunkSize ≤ req.ChunkSize) :
    1 ≤ req.ChunkSize ∧
      makeSlice maxLen req.ChunkSize = some (List.replicate req.ChunkSize.toNat []) ∧
      ∃ (r : Option GoError) (K : Nat), K ≤ numChunks req.N req.ChunkSize ∧
        (∀ fuel : Nat, numChunks req.N req.ChunkSize < fuel →
          GetFibonacciStream fuel maxLen s ctx req
            = (Outcome.ret r, callsUpTo req.N req.ChunkSize K)) ∧
        (∀ k : Nat, k < K →
          (callsUpTo req.N req.ChunkSize K)[k]?
            = some (chunkAt req.N req.ChunkSize k, (k : Int) * req.ChunkSize) ∧
          1 ≤ (chunkAt req.N req.ChunkSize k).length ∧
          ((chunkAt req.N req.ChunkSize k).length : Int) ≤ req.ChunkSize) ∧
        List.Pairwise (fun a b => a < b) ((callsUpTo req.N req.ChunkSize K).map Prod.snd) := by
  have hcs1 : 1 ≤ req.ChunkSize := by omega
  have hm : makeSlice maxLen req.ChunkSize = some (List.replicate req.ChunkSize.toNat []) := by
    simp only [makeSlice]
    rw [if_pos ⟨by omega, by omega⟩]
  refine ⟨hcs1, hm, ?_⟩
  obtain ⟨N, hNe⟩ := Int.eq_ofNat_of_zero_le h0
  obtain ⟨C, hCe⟩ := Int.eq_ofNat_of_zero_le (by omega : 0 ≤ req.ChunkSize)
  have hC : 1 ≤ C := by omega
  obtain ⟨r, K, hK, hrun⟩ := processChunks_returns maxLen ctx req.SendFunc N C hC (by omega)
  rw [hNe, hCe]
  refine ⟨r, K, hK, fun fuel hf => ?_, fun k hk => ?_, callsUpTo_offsets _ _ (by omega) _⟩
  · rw [GetFibonacciStream_accepted fuel maxLen s ctx req (by omega) (by omega) (by omega)
      (by omega), hNe, hCe]
    exact hrun fuel hf
  · obtain ⟨b1, b2⟩ := chunkAt_length_bounds N C k hC (by omega)
    exact ⟨callsUpTo_getElem? _ _ _ _ hk, b1, by exact_mod_cast b2⟩

/-- Witness of C14 (amended): the default configuration (max 100, min 5, limits 500 and
1000) with the request `N = 12`, `ChunkSize = 5`. -/
theorem C14_stream_terminates_witness :
    (1 : Int) ≤ 5 ∧ makeSlice maxLen64 5 = some (List.replicate (5 : Int).toNat []) ∧
      ∃ (r : Option GoError) (K : Nat), K ≤ numChunks 12 5 ∧
        (∀ fuel : Nat, numChunks 12 5 < fuel →
          GetFibonacciStream fuel maxLen64 (NewService 100 5 500 1000) background
              { N := 12, ChunkSize := 5, SendFunc := fun _ _ _ => none }
            = (Outcome.ret r, callsUpTo 12 5 K)) ∧
        (∀ k : Nat, k < K →
          (callsUpTo 12 5 K)[k]? = some (chunkAt 12 5 k, (k : Int) * 5) ∧
          1 ≤ (chunkAt 12 5 k).length ∧ ((chunkAt 12 5 k).length : Int) ≤ 5) ∧
        List.Pairwise (fun a b => a < b) ((callsUpTo 12 5 K).map Prod.snd) :=
  C14_stream_terminates maxLen64 (NewService 100 5 500 1000) background
    { N := 12, ChunkSize := 5, SendFunc := fun _ _ _ => none }
    (by decide) (by decide) (by decide) (by decide) (by decide) (by decide)

end Fibonacci
